import Mathlib

/-!
# Verification of the badgerhold query engine and index manager

A shallow embedding of the badgerhold secondary-indexing / query-execution
layer (package `badgerhold`), translated from the repository sources:

* `query.go` (src/unnamed/part_000): criteria model, match evaluator,
  `runQuery`, `runQuerySort`, `getSkipAndLimitRange`, `sortFunction`,
  `isFindByIndexQuery`, `findByIndexQuery`, `fetchIndexValues`;
* `put.go`: `Insert`/`TxInsert`, `Update`/`TxUpdate`, `Upsert`/`TxUpsert`,
  `UpdateMatching`;
* `get.go` / `delete.go` (src/unnamed/part_003): `TxGet`, `Delete`,
  `DeleteMatching`.

The repository files `compare.go`, `index.go` and `store.go` (the `compare`
function, the `KeyList` type, the index add/delete operations and the badger
iterator wrapper) are not part of the reviewed sources; where a definition
depends on them it is modelled from the specification (spec.md §4.1, §4.2,
§4.4) and marked `Modelled from the spec:` in its doc comment.

Modelling conventions:

* Go `interface{}` values stored in fields, criteria and keys are modelled by
  the closed value type `Val` (an integer kind and a string kind), enough to
  exhibit both same-kind comparisons and kind mismatches.
* A decoded record is an association list from field names to values
  (`Rec`); the codec (gob encode/decode) is modelled as the identity, and
  primary keys are `Val`s compared directly (byte-wise comparison of encoded
  keys corresponds to equality of the decoded values).
* Go's `panic` and Go `error` returns are both modelled with `Except Err`;
  distinct `Err` constructors keep panics and ordinary errors apart.
* The badger iterator is modelled only for the full-scan access path
  (`query.index == ""`); queries that would take the guided index-iteration
  path (the iterator implementation is not among the reviewed sources)
  evaluate to a dedicated error, and all theorems about `runQuery` restrict
  to full-scan queries.
-/

namespace Badgerhold

/-- A stored/compared Go value: an integer kind or a string kind.
Two kinds suffice to exercise both the same-kind comparisons and the
`TypeMismatch` paths of the evaluator. -/
inductive Val where
  | vint : Int → Val
  | vstr : String → Val
deriving DecidableEq, Repr

/-- Criterion operator tags, from the `const` block of query.go
(`eq`, `ne`, `gt`, `lt`, `ge`, `le`, `in`).  The regular-expression,
match-function, nil, prefix/suffix, map-key and slice operators are not
modelled (no theorem refers to them); in particular there are no
predicate-function criteria, so `hasMatchFunc` from query.go is constantly
false and is not carried. -/
inductive Op where
  | eq | ne | gt | lt | ge | le | inOp
deriving DecidableEq, Repr

/-- Error / panic outcomes of the embedded operations. -/
inductive Err where
  /-- `ErrTypeMismatch` from the comparison of incompatible kinds. -/
  | typeMismatch
  /-- `ErrNotFound`. -/
  | notFound
  /-- `ErrKeyExists`. -/
  | keyExists
  /-- "The field %s does not exist in the type %s" (query.go `fieldValue`). -/
  | fieldMissing
  /-- "The index %s does not exist" (query.go `validateIndex` / `badIndex`). -/
  | badIndex
  /-- panic "inconsistency between keys stored in index and in Badger
  directly" (query.go `findByIndexQuery`). -/
  | panicInconsistency
  /-- Nil-pointer dereference: `item.Value` called on the nil item returned
  together with a non-not-found engine error (get.go `TxGet`). -/
  | panicNilItem
  /-- An engine (badger) error other than `ErrKeyNotFound`; the exemplar is
  `badger.ErrDiscardedTxn`. -/
  | engine
  /-- Guided index iteration: the iterator implementation (index.go) is not
  among the reviewed sources, so this access path is out of the model. -/
  | guidedIterationUnmodelled
  /-- Recursion fuel exhausted (model artifact; unreachable for the fuel
  bounds used by the wrappers). -/
  | fuelExhausted
deriving DecidableEq, Repr

/-- Modelled from the spec: the `compare(a, b) -> {-1,0,1} | TypeMismatch`
function of the missing compare.go (spec.md §4.1): numeric kinds compare by
natural order, textual kinds lexicographically by code point, kind
mismatches fail with `TypeMismatch`. -/
def compare : Val → Val → Except Err Int
  | .vint a, .vint b => .ok (if a < b then -1 else if a = b then 0 else 1)
  | .vstr a, .vstr b => .ok (if a < b then -1 else if a = b then 0 else 1)
  | _, _ => .error .typeMismatch

/-- A criterion: operator plus a single comparison value or a list of
values (query.go `Criterion`, without the back-pointer to the owning query,
which only serves the fluent builder). -/
structure Criterion where
  operator : Op
  value : Val
  values : List Val
deriving DecidableEq, Repr

/-- Modelled from the spec: the `Criterion.compare` method of the missing
compare.go.  Ordering operators propagate the kind-mismatch error;
equality/inequality operators fall back to structural equality rather than
failing (spec.md §4.1). -/
def Criterion.cmp (c : Criterion) (value other : Val) : Except Err Int :=
  match compare value other with
  | .ok r => .ok r
  | .error e =>
    if c.operator = .eq ∨ c.operator = .ne then
      .ok (if value = other then 0 else 1)
    else .error e

/-- The `in`-operator loop of `Criterion.test` (query.go): compare the
record value against each listed value, succeeding on the first comparison
that yields 0 and propagating the first comparison error. -/
def Criterion.testIn (c : Criterion) (recordValue : Val) : List Val → Except Err Bool
  | [] => .ok false
  | v :: vs =>
    match c.cmp recordValue v with
    | .error e => .error e
    | .ok r => if r = 0 then .ok true else c.testIn recordValue vs

/-- `Criterion.test` (query.go), restricted to the modelled operators: the
`in` loop and the comparison operators `eq`/`ne`/`gt`/`lt`/`ge`/`le`.
The `encoded` branch (decode of key bytes) is the identity in this model. -/
def Criterion.test (c : Criterion) (recordValue : Val) : Except Err Bool :=
  match c.operator with
  | .inOp => c.testIn recordValue c.values
  | _ =>
    match c.cmp recordValue c.value with
    | .error e => .error e
    | .ok result =>
      match c.operator with
      | .eq => .ok (result = 0)
      | .ne => .ok (result ≠ 0)
      | .gt => .ok (result > 0)
      | .lt => .ok (result < 0)
      | .le => .ok (result < 0 ∨ result = 0)
      | _ => .ok (result > 0 ∨ result = 0)   -- ge; inOp handled above

/-- `matchesAllCriteria` (query.go): all criteria of one field must pass,
short-circuiting on the first failure or error. -/
def matchesAllCriteria : List Criterion → Val → Except Err Bool
  | [], _ => .ok true
  | c :: cs, v =>
    match c.test v with
    | .error e => .error e
    | .ok false => .ok false
    | .ok true => matchesAllCriteria cs v

/-- A decoded record: an association list from (exported) field names to
values. -/
def Rec := List (String × Val)
deriving DecidableEq, Repr

/-- `fieldValue` (query.go) without the nested-path descent: the first
binding of the field, if any (a missing field is an error at the caller). -/
def recLookup (r : Rec) (field : String) : Option Val :=
  match r with
  | [] => none
  | (f, v) :: rest => if f = field then some v else recLookup rest field

/- A query: the `Query` struct of query.go restricted to the fields the
execution engine reads (`index`, `fieldCriteria`, `ors`, `limit`, `skip`,
`sort`, `reverse`).  `fieldCriteria` is an association list standing for the
Go map (the map has unique keys; theorems that depend on this carry a
`Nodup` hypothesis).  `limit` and `skip` are Go `int`s, hence `Int`.
The OR-branch list is the mutually inductive `QueryList` (a plain nested
`List Query` would leave the recursive definitions over queries without
executable structural recursion). -/
mutual
inductive Query where
  | mk (index : String) (fieldCriteria : List (String × List Criterion))
       (ors : QueryList) (limit : Int) (skip : Int)
       (sort : List String) (reverse : Bool)

inductive QueryList where
  | nil
  | cons (q : Query) (qs : QueryList)
end

def QueryList.toList : QueryList → List Query
  | .nil => []
  | .cons q qs => q :: qs.toList

def QueryList.isEmpty : QueryList → Bool
  | .nil => true
  | .cons _ _ => false

def Query.index : Query → String
  | .mk i _ _ _ _ _ _ => i

def Query.fieldCriteria : Query → List (String × List Criterion)
  | .mk _ fc _ _ _ _ _ => fc

def Query.ors : Query → QueryList
  | .mk _ _ o _ _ _ _ => o

def Query.limit : Query → Int
  | .mk _ _ _ l _ _ _ => l

def Query.skip : Query → Int
  | .mk _ _ _ _ s _ _ => s

def Query.sort : Query → List String
  | .mk _ _ _ _ _ srt _ => srt

def Query.reverse : Query → Bool
  | .mk _ _ _ _ _ _ r => r

-- The size of a query tree, used as recursion fuel by the execution
-- engine (`runQuery` recurses both into OR-branches and into the
-- sort-stripped copy built by `runQuerySort`, which is not a subterm;
-- a non-empty sort list contributes one extra unit for that strip step).
mutual
def Query.size : Query → Nat
  | .mk _ _ ors _ _ srt _ => QueryList.size ors + (if srt.isEmpty then 1 else 2)

def QueryList.size : QueryList → Nat
  | .nil => 0
  | .cons q qs => Query.size q + QueryList.size qs + 1
end

/-- `Query.IsEmpty` (query.go): no index, no field criteria, no
OR-branches. -/
def Query.IsEmpty (q : Query) : Bool :=
  q.index = "" && q.fieldCriteria.isEmpty && q.ors.isEmpty

/-- The first criteria list bound to a field name (Go map read
`q.fieldCriteria[field]`). -/
def lookupCriteria (fc : List (String × List Criterion)) (field : String) :
    Option (List Criterion) :=
  match fc with
  | [] => none
  | (f, cs) :: rest => if f = field then some cs else lookupCriteria rest field

/-- The `Key` constant of query.go: the reserved empty field name denoting
the primary key. -/
def Key : String := ""

/-- `matchesAllFields` (query.go): every field's criteria must pass.
A field equal to `q.index` is skipped (already handled by the index
iterator; there are no predicate-function criteria in the model, so the
`hasMatchFunc` guard is constantly false, and `badIndex` is handled by
`validateIndex` before the loop runs).  Criteria on the `Key` pseudo-field
are tested against the primary key; other fields are looked up in the
record, a missing field being an error. -/
def matchesAllFields (q : Query) (key : Val) (value : Rec) : Except Err Bool :=
  if q.IsEmpty then .ok true else loop q.fieldCriteria
where
  loop : List (String × List Criterion) → Except Err Bool
    | [] => .ok true
    | (field, criteria) :: rest =>
      if field = q.index then loop rest
      else if field = Key then
        match matchesAllCriteria criteria key with
        | .error e => .error e
        | .ok false => .ok false
        | .ok true => loop rest
      else
        match recLookup value field with
        | none => .error .fieldMissing
        | some fVal =>
          match matchesAllCriteria criteria fVal with
          | .error e => .error e
          | .ok false => .ok false
          | .ok true => loop rest

-- `Query.matches` (query.go `matches`): the AND set first, then each
-- OR-branch in order, short-circuiting on the first success or error.
mutual
def Query.matches : Query → Val → Rec → Except Err Bool
  | .mk i fc ors l s srt r, key, value =>
    match matchesAllFields (.mk i fc ors l s srt r) key value with
    | .error e => .error e
    | .ok true => .ok true
    | .ok false => QueryList.matchesOrs ors key value

def QueryList.matchesOrs : QueryList → Val → Rec → Except Err Bool
  | .nil, _, _ => .ok false
  | .cons orQuery rest, key, value =>
    match orQuery.matches key value with
    | .error e => .error e
    | .ok true => .ok true
    | .ok false => rest.matchesOrs key value
end

/-- The store state: primary records (in key order), secondary-index
entries, and the names of the declared (non-unique) secondary indexes.
Index entries are keyed by (index name, encoded field value) and hold the
primary-key list of the entry (`KeyList`), matching the persisted layout of
spec.md §6; the type-name component is implicit (one entity type). -/
structure Store where
  records : List (Val × Rec)
  indexes : List ((String × Val) × List Val)
  declared : List String

/-- `tx.Get` on a primary key: the first record bound to the key. -/
def storeGet (st : Store) (k : Val) : Option Rec :=
  match st.records.find? (fun p => p.1 = k) with
  | some p => some p.2
  | none => none

/-- The `KeyList` bound to one index entry key in an entry table. -/
def lookupEntry (ixs : List ((String × Val) × List Val)) (ik : String × Val) : List Val :=
  match ixs.find? (fun p => p.1 = ik) with
  | some p => p.2
  | none => []

/-- The `KeyList` stored under one index entry (empty when the entry is
absent, which reads the same as badger's `ErrKeyNotFound` continue-branch
in `fetchIndexValues`). -/
def entryKeys (st : Store) (idx : String) (v : Val) : List Val :=
  lookupEntry st.indexes (idx, v)

/-- `validateIndex` (query.go): no index is always valid; a named index
must be declared for the type. -/
def validateIndex (st : Store) (q : Query) : Except Err Unit :=
  if q.index = "" then .ok ()
  else if q.index ∈ st.declared then .ok ()
  else .error .badIndex

/-- `getSkipAndLimitRange` (query.go): the [startIndex, endIndex) slice of
a fully collected result set of length `recordsLen`. -/
def getSkipAndLimitRange (q : Query) (recordsLen : Nat) : Nat × Nat :=
  if q.skip > (recordsLen : Int) then (0, 0)
  else
    let startIndex := q.skip.toNat
    let limitIndex := q.limit + q.skip
    if q.limit > 0 ∧ limitIndex ≤ (recordsLen : Int) then (startIndex, limitIndex.toNat)
    else (startIndex, recordsLen)

/-- `records[startIndex:endIndex]` on a Lean list. -/
def sliceRange (l : List α) (r : Nat × Nat) : List α :=
  (l.take r.2).drop r.1

/-- `fmt.Sprintf("%s", v)` for the two modelled kinds: a string formats as
itself; a non-string formats with Go's `%!s(int=…)` error verb. -/
def sprintfS : Val → String
  | .vstr s => s
  | .vint n => "%!s(int=" ++ toString n ++ ")"

/-- `sortFunction` (query.go): compare two records field by field along
`q.sort`; `reverse` swaps the operands; a comparison error falls back to a
lexicographic compare of the `%s`-formatted values; ties continue with the
next sort field.  (The source panics on a missing sort field — "shouldn't
happen due to field check above", i.e. `validateSortFields`; the model
returns `false` there.) -/
def sortFunction (q : Query) (first second : Rec) : Bool :=
  loop q.sort
where
  loop : List String → Bool
    | [] => false
    | field :: rest =>
      match recLookup first field, recLookup second field with
      | some v, some o =>
        let value := if q.reverse then o else v
        let other := if q.reverse then v else o
        match compare value other with
        | .error _ =>
          let valS := sprintfS value
          let otherS := sprintfS other
          if valS < otherS then true
          else if valS = otherS then loop rest
          else false
        | .ok cmp =>
          if cmp = -1 then true
          else if cmp = 0 then loop rest
          else false
      | _, _ => false

/-- `sort.Slice(records, …)` with the given less-function (sort.Slice's
exact order on ties is unspecified in Go; a simple insertion sort is a
valid refinement and no theorem depends on tie order). -/
def sortByLess (less : α → α → Bool) : List α → List α
  | [] => []
  | x :: xs => insertLess x (sortByLess less xs)
where
  insertLess (x : α) : List α → List α
    | [] => [x]
    | y :: ys => if less y x then y :: insertLess x ys else x :: y :: ys

/-- The `qCopy` built by `runQuerySort` (query.go): the same query with
`sort`, `limit` and `skip` cleared. -/
def stripPage : Query → Query
  | .mk i fc ors _ _ _ rev => .mk i fc ors 0 0 [] rev

/-- The candidate loop of `runQuery` (query.go 778-825): for each candidate
`(key, decoded value)` in iteration order, skip keys already retrieved by
an earlier pass, evaluate the match, discard the first `skip` successes,
emit the rest while decrementing `limit` (only when the query set a limit),
and break once `limit` reaches zero.  Returns the emitted records, the keys
added to `newKeys`, and the residual `skip` and `limit` counters. -/
def queryLoop (q : Query) (retrievedKeys : List Val) :
    List (Val × Rec) → Int → Int →
    Except Err (List (Val × Rec) × List Val × Int × Int)
  | [], skip, limit => .ok ([], [], skip, limit)
  | (k, v) :: rest, skip, limit =>
    if k ∈ retrievedKeys then queryLoop q retrievedKeys rest skip limit
    else
      match matchesAllFields q k v with
      | .error e => .error e
      | .ok false => queryLoop q retrievedKeys rest skip limit
      | .ok true =>
        if skip > 0 then queryLoop q retrievedKeys rest (skip - 1) limit
        else
          let limit' := if q.limit ≠ 0 then limit - 1 else limit
          if q.limit ≠ 0 ∧ limit' = 0 then .ok ([(k, v)], [k], skip, limit')
          else
            match queryLoop q retrievedKeys rest skip limit' with
            | .error e => .error e
            | .ok (emitted, newKeys, skip', lim') =>
              .ok ((k, v) :: emitted, k :: newKeys, skip', lim')

/-- `runQuery` (query.go 740-850), fuel-indexed.  The iterator wrapper of
index.go is not among the reviewed sources, so only the full-scan access
path (`q.index = ""`, iterating `st.records` in key order) is modelled;
a non-empty index in the non-sort branch evaluates to the dedicated error
`guidedIterationUnmodelled` and theorems restrict to full-scan queries.
When sort fields are present, `runQuerySort` (query.go 852-893) runs the
query with sort/skip/limit stripped — dropping `retrievedKeys` and `skip`,
as the source does — sorts the whole result set with `sortFunction`, and
slices it with `getSkipAndLimitRange`.  After the candidate loop, when the
limit is not yet reached, each OR-branch is run with the accumulated key
set `retrievedKeys ++ newKeys` and the residual `skip`. -/
def runQueryF : Nat → Store → Query → List Val → Int → Except Err (List (Val × Rec))
  | 0, _, _, _, _ => .error .fuelExhausted
  | fuel + 1, st, q, retrievedKeys, skip =>
    match validateIndex st q with
    | .error e => .error e
    | .ok () =>
      if ¬ q.sort.isEmpty then
        match runQueryF fuel st (stripPage q) [] 0 with
        | .error e => .error e
        | .ok records =>
          let sorted := sortByLess (fun a b => sortFunction q a.2 b.2) records
          .ok (sliceRange sorted (getSkipAndLimitRange q sorted.length))
      else if q.index ≠ "" then .error .guidedIterationUnmodelled
      else
        match queryLoop q retrievedKeys st.records skip (q.limit - retrievedKeys.length) with
        | .error e => .error e
        | .ok (emitted, newKeys, skip', limit') =>
          if q.limit ≠ 0 ∧ limit' = 0 then .ok emitted
          else
            match q.ors with
            | .nil => .ok emitted
            | ors =>
              let retrieved' := retrievedKeys ++ newKeys
              match ors.toList.foldr
                  (fun orQuery (acc : Except Err (List (Val × Rec))) =>
                    match runQueryF fuel st orQuery retrieved' skip' with
                    | .error e => .error e
                    | .ok branchEmitted =>
                      match acc with
                      | .error e => .error e
                      | .ok laterEmitted => .ok (branchEmitted ++ laterEmitted))
                  (.ok ([] : List (Val × Rec))) with
              | .error e => .error e
              | .ok orEmitted => .ok (emitted ++ orEmitted)

/-- `runQuery` with its fuel instantiated to the query size, which always
suffices. -/
def runQuery (st : Store) (q : Query) (retrievedKeys : List Val) (skip : Int) :
    Except Err (List (Val × Rec)) :=
  runQueryF q.size st q retrievedKeys skip

/-- `isFindByIndexQuery` (query.go 1039-1046): the query names an index,
has exactly one criterion on that index field, no OR-branches, and that
criterion is an Equal or Membership (`in`) test. -/
def isFindByIndexQuery (q : Query) : Bool :=
  if q.index == "" || q.fieldCriteria.isEmpty
      || ((lookupCriteria q.fieldCriteria q.index).getD []).length != 1
      || !q.ors.isEmpty then
    false
  else
    match (lookupCriteria q.fieldCriteria q.index).getD [] with
    | [c] => c.operator == .eq || c.operator == .inOp
    | _ => false

/-- `fetchIndexValues` (query.go 1426-1454): concatenate the stored
`KeyList`s of the index entries for each sought value (an absent entry
contributes nothing, matching the `ErrKeyNotFound`-continue branch). -/
def fetchIndexValues (st : Store) (q : Query) : List Val → List Val
  | [] => []
  | v :: vs => entryKeys st q.index v ++ fetchIndexValues st q vs

/-- The per-key loop of `findByIndexQuery` (query.go 1376-1411): fetch each
primary key of the index `KeyList` (panicking on an index/store
inconsistency), evaluate the remaining criteria with `matchesAllFields`,
and keep the records that pass.  (`setKeyField` only restores the struct's
key field, which the returned pair carries anyway.) -/
def findByIndexLoop (st : Store) (q : Query) : List Val → Except Err (List (Val × Rec))
  | [] => .ok []
  | k :: ks =>
    match storeGet st k with
    | none => .error .panicInconsistency
    | some r =>
      match matchesAllFields q k r with
      | .error e => .error e
      | .ok false => findByIndexLoop st q ks
      | .ok true =>
        match findByIndexLoop st q ks with
        | .error e => .error e
        | .ok rest => .ok ((k, r) :: rest)

/-- `findByIndexQuery` (query.go 1347-1424): resolve the single Equal or
Membership criterion on the named index directly against the stored index
entries, decode only the referenced primary keys, re-check the remaining
criteria, sort if requested and slice by skip/limit.
(`validateSortFields` checks sort-field names against the struct type;
records are untyped field maps in this model, so it cannot fail.) -/
def findByIndexQuery (st : Store) (q : Query) : Except Err (List (Val × Rec)) :=
  match (lookupCriteria q.fieldCriteria q.index).getD [] with
  | [] => .error .badIndex    -- unreachable behind isFindByIndexQuery
  | criteria :: _ =>
    match validateIndex st q with
    | .error e => .error e
    | .ok () =>
      let keyList := fetchIndexValues st q
        (if criteria.operator == .inOp then criteria.values else [criteria.value])
      match findByIndexLoop st q keyList with
      | .error e => .error e
      | .ok kept =>
        let sorted := if q.sort.isEmpty then kept
          else sortByLess (fun a b => sortFunction q a.2 b.2) kept
        .ok (sliceRange sorted (getSkipAndLimitRange q sorted.length))

/-- `findQuery` (query.go 974-1037): dispatch to the direct index lookup
when `isFindByIndexQuery` holds, otherwise run the iteration engine with
the query's own skip.  The result is the list of matched
(primary key, decoded record) pairs in emission order. -/
def findQuery (st : Store) (q : Query) : Except Err (List (Val × Rec)) :=
  if isFindByIndexQuery q then findByIndexQuery st q
  else runQuery st q [] q.skip

/-! ## Index manager (spec.md §4.4; index.go is not among the reviewed
sources, so these are modelled from the spec) -/

/-- Rebind one index entry key in an entry table (a shadowing update:
`lookupEntry` reads the most recent binding, so this is the assoc-list
model of badger's keyed overwrite `tx.Set(indexKey, …)`). -/
def setEntry (ixs : List ((String × Val) × List Val)) (ik : String × Val)
    (ks : List Val) : List ((String × Val) × List Val) :=
  (ik, ks) :: ixs

/-- Modelled from the spec: `KeyList.add` of the missing index.go — insert
the key into the entry's key list unless already present (the source keeps
the list sorted and duplicate-free; only membership is observable here). -/
def keyListAdd (ks : List Val) (k : Val) : List Val :=
  if k ∈ ks then ks else k :: ks

/-- One declared index's contribution to `indexAdd`. -/
def indexAddStep (k : Val) (record : Rec)
    (ixs : List ((String × Val) × List Val)) (f : String) :
    List ((String × Val) × List Val) :=
  match recLookup record f with
  | some v => setEntry ixs (f, v) (keyListAdd (lookupEntry ixs (f, v)) k)
  | none => ixs

/-- Modelled from the spec: `indexAdd` of the missing index.go (spec.md
§4.4, non-unique indexes) — for every declared index, append the primary
key to the entry keyed by the record's field value, creating the entry if
absent.  (A record lacking the indexed field contributes no entry; Go
structs always carry their tagged fields, so this is a model artifact.) -/
def indexAdd (st : Store) (k : Val) (record : Rec) : Store :=
  { st with indexes := st.declared.foldl (indexAddStep k record) st.indexes }

/-- One declared index's contribution to `indexDelete`. -/
def indexDeleteStep (k : Val) (record : Rec)
    (ixs : List ((String × Val) × List Val)) (f : String) :
    List ((String × Val) × List Val) :=
  match recLookup record f with
  | some v => setEntry ixs (f, v) ((lookupEntry ixs (f, v)).erase k)
  | none => ixs

/-- Modelled from the spec: `indexDelete` of the missing index.go (spec.md
§4.4) — for every declared index, remove the primary key from the entry
keyed by the record's field value. -/
def indexDelete (st : Store) (k : Val) (record : Rec) : Store :=
  { st with indexes := st.declared.foldl (indexDeleteStep k record) st.indexes }

/-- The index invariant of spec.md §3: a primary key appears in the entry
for value `v` of index `idx` exactly when a stored record with that key has
field value `v`. -/
def indexConsistent (st : Store) (idx : String) : Prop :=
  ∀ v k, k ∈ entryKeys st idx v ↔
    ∃ r, (k, r) ∈ st.records ∧ recLookup r idx = some v

/-! ## Primary-record mutation (put.go, delete.go, get.go) -/

/-- `tx.Set` on a key known to exist: rebind it in place. -/
def setRecord (records : List (Val × Rec)) (k : Val) (v : Rec) : List (Val × Rec) :=
  records.map (fun p => if p.1 = k then (k, v) else p)

/-- `tx.Set` in general: rebind the key if present, insert it otherwise. -/
def putRecord (records : List (Val × Rec)) (k : Val) (v : Rec) : List (Val × Rec) :=
  if records.any (fun p => p.1 = k) then setRecord records k v
  else records ++ [(k, v)]

/-- The outcome of the raw `tx.Get` existence check: the item, badger's
`ErrKeyNotFound`, or some other engine error (`badger.ErrDiscardedTxn`
being the exemplar, produced by a discarded transaction). -/
inductive GetRes where
  | found (r : Rec)
  | notFound
  | engineErr
deriving DecidableEq, Repr

/-- `tx.Get` on a transaction that may be broken (e.g. discarded). -/
def txGetRaw (broken : Bool) (st : Store) (k : Val) : GetRes :=
  if broken then .engineErr
  else match storeGet st k with
    | some r => .found r
    | none => .notFound

/-- The caller's `data` argument of an Insert: whether the value is
settable after `reflect.Indirect` (i.e. was passed by reference), the
declared `badgerholdKey` field if any, and the field values. -/
structure DataArg where
  settable : Bool
  keyField : Option String
  value : Rec
deriving DecidableEq, Repr

/-- `reflect.Zero` for the kind of a value. -/
def zeroOf : Val → Val
  | .vint _ => .vint 0
  | .vstr _ => .vstr ""

/-- Type equality of the declared key-field type and the insert key's
type. -/
def sameKind : Val → Val → Bool
  | .vint _, .vint _ => true
  | .vstr _, .vstr _ => true
  | _, _ => false

/-- Rebind one field of a record. -/
def setField (r : Rec) (f : String) (v : Val) : Rec :=
  r.map (fun p => if p.1 = f then (f, v) else p)

/-- The key-backfill block of `TxInsert` (put.go 90-108): only when the
data was passed by reference, declares a key field, that field's type
equals the insert key's type, and the field still holds its zero value, is
the field set to the insert key; in every other case the caller's value is
left untouched. -/
def insertSetKey (data : DataArg) (key : Val) : DataArg :=
  if ¬ data.settable then data
  else
    match data.keyField with
    | none => data
    | some f =>
      match recLookup data.value f with
      | none => data
      | some fieldValue =>
        if ¬ sameKind fieldValue key then data
        else if fieldValue ≠ zeroOf fieldValue then data
        else { data with value := setField data.value f key }

/-- `TxInsert` (put.go 51-111); `NextSequence` keys are not modelled.
Note the existence check (put.go 68-71): any `tx.Get` outcome other than
`badger.ErrKeyNotFound` — the key being present, but also any genuine
engine error — yields `ErrKeyExists`. -/
def txInsert (broken : Bool) (st : Store) (key : Val) (data : DataArg) :
    Except Err (Store × DataArg) :=
  match txGetRaw broken st key with
  | .notFound =>
    let st1 := { st with records := st.records ++ [(key, data.value)] }
    .ok (indexAdd st1 key data.value, insertSetKey data key)
  | _ => .error .keyExists

/-- `TxUpdate` (put.go 126-170): fail with `ErrNotFound` on an absent key;
otherwise delete the index entries implied by the old decoded value, write
the new value, and add the new index entries. -/
def txUpdate (st : Store) (key : Val) (data : Rec) : Except Err Store :=
  match storeGet st key with
  | none => .error .notFound
  | some existingVal =>
    let st1 := indexDelete st key existingVal
    let st2 := { st1 with records := setRecord st1.records key data }
    .ok (indexAdd st2 key data)

/-- `TxUpsert` (put.go 186-232): like `TxUpdate` when the key exists
(delete old index entries first), a plain insert otherwise. -/
def txUpsert (st : Store) (key : Val) (data : Rec) : Except Err Store :=
  match storeGet st key with
  | some existingVal =>
    let st1 := indexDelete st key existingVal
    let st2 := { st1 with records := putRecord st1.records key data }
    .ok (indexAdd st2 key data)
  | none =>
    let st1 := { st with records := putRecord st.records key data }
    .ok (indexAdd st1 key data)

/-- `TxDelete` (delete.go, src/unnamed/part_003 143-177). -/
def txDelete (st : Store) (key : Val) : Except Err Store :=
  match storeGet st key with
  | none => .error .notFound
  | some value =>
    let st1 := { st with records := st.records.filter (fun p => ¬ p.1 = key) }
    .ok (indexDelete st1 key value)

/-- The per-record mutation loop of `updateQuery` (query.go 1106-1135):
delete the indexes of the original value, apply the caller's update
function, write the result, and add the new indexes. -/
def updateLoop (update : Rec → Except Err Rec) (st : Store) :
    List (Val × Rec) → Except Err Store
  | [] => .ok st
  | (k, r) :: rest =>
    let st1 := indexDelete st k r
    match update r with
    | .error e => .error e
    | .ok upVal =>
      let st2 := { st1 with records := setRecord st1.records k upVal }
      updateLoop update (indexAdd st2 k upVal) rest

/-- `updateQuery` (query.go 1085-1138): materialize the matches, then
mutate them. -/
def updateQuery (st : Store) (q : Query) (update : Rec → Except Err Rec) :
    Except Err Store :=
  match runQuery st q [] q.skip with
  | .error e => .error e
  | .ok records => updateLoop update st records

/-- `deleteQuery` (query.go 1048-1083): materialize the matches, then
delete each together with its index entries. -/
def deleteQuery (st : Store) (q : Query) : Except Err Store :=
  match runQuery st q [] q.skip with
  | .error e => .error e
  | .ok records =>
    .ok (records.foldl (fun s p =>
      indexDelete { s with records := s.records.filter (fun pr => ¬ pr.1 = p.1) } p.1 p.2) st)

/-- `TxGet` (get.go, src/unnamed/part_003 26-63).  The source compares the
`tx.Get` error only against `badger.ErrKeyNotFound`; any other engine
error falls through to `item.Value` on the nil item badger returned with
it — a nil-pointer dereference, modelled as `panicNilItem`.  (The test
`TestTxGetBadgerError` expects `badger.ErrDiscardedTxn` to be returned
instead.) -/
def txGet (broken : Bool) (st : Store) (key : Val) : Except Err Rec :=
  match txGetRaw broken st key with
  | .notFound => .error .notFound
  | .engineErr => .error .panicNilItem
  | .found r => .ok r

/-! ## Top-level entry points and conflict retry (spec.md §5) -/

/-- An error surfaced by a top-level call: the transaction body's own
error, or badger's optimistic-conflict error raised at commit. -/
inductive TopErr where
  | conflict
  | app (e : Err)
deriving DecidableEq, Repr

/-- `s.Badger().Update(body)`: a body error discards the transaction (the
state is unchanged); otherwise the commit either succeeds or fails with
`badger.ErrConflict` (the state is unchanged), per the given commit
outcome. -/
def badgerUpdate (body : Store → Except Err Store) (conflictAtCommit : Bool)
    (st : Store) : Store × Option TopErr :=
  match body st with
  | .error e => (st, some (.app e))
  | .ok st' => if conflictAtCommit then (st, some .conflict) else (st', none)

/-- `Store.Insert` (put.go 39-48): run `TxInsert` in its own transaction
and retry the whole operation on `badger.ErrConflict`.  The list gives the
commit outcome of each successive attempt (`true` = conflict); an
exhausted list means no further induced conflicts. -/
def Insert : List Bool → Store → Val → DataArg → Store × Option TopErr
  | [], st, key, data =>
    badgerUpdate (fun s => (txInsert false s key data).map Prod.fst) false st
  | c :: rest, st, key, data =>
    let r := badgerUpdate (fun s => (txInsert false s key data).map Prod.fst) c st
    if r.2 = some .conflict then Insert rest r.1 key data else r

/-- `Store.Update` (put.go 115-123): retries on `badger.ErrConflict`. -/
def Update : List Bool → Store → Val → Rec → Store × Option TopErr
  | [], st, key, data => badgerUpdate (fun s => txUpdate s key data) false st
  | c :: rest, st, key, data =>
    let r := badgerUpdate (fun s => txUpdate s key data) c st
    if r.2 = some .conflict then Update rest r.1 key data else r

/-- `Store.Upsert` (put.go 174-183): retries on `badger.ErrConflict`. -/
def Upsert : List Bool → Store → Val → Rec → Store × Option TopErr
  | [], st, key, data => badgerUpdate (fun s => txUpsert s key data) false st
  | c :: rest, st, key, data =>
    let r := badgerUpdate (fun s => txUpsert s key data) c st
    if r.2 = some .conflict then Upsert rest r.1 key data else r

/-- `Store.UpdateMatching` (put.go 236-244): retries on
`badger.ErrConflict`. -/
def UpdateMatching : List Bool → Store → Query → (Rec → Except Err Rec) →
    Store × Option TopErr
  | [], st, q, update => badgerUpdate (fun s => updateQuery s q update) false st
  | c :: rest, st, q, update =>
    let r := badgerUpdate (fun s => updateQuery s q update) c st
    if r.2 = some .conflict then UpdateMatching rest r.1 q update else r

/-- `Store.Delete` (delete.go, src/unnamed/part_003 136-141): a single
transaction attempt with no conflict retry — the commit outcome is
returned to the caller as-is. -/
def Delete (conflictAtCommit : Bool) (st : Store) (key : Val) :
    Store × Option TopErr :=
  badgerUpdate (fun s => txDelete s key) conflictAtCommit st

/-- `Store.DeleteMatching` (delete.go, src/unnamed/part_003 180-184): a
single transaction attempt with no conflict retry. -/
def DeleteMatching (conflictAtCommit : Bool) (st : Store) (q : Query) :
    Store × Option TopErr :=
  badgerUpdate (fun s => deleteQuery s q) conflictAtCommit st

/-! ## Query builders (query.go `Skip`, `Limit`, `Or`) -/

def Query.withSkip : Query → Int → Query
  | .mk i fc ors l _ srt r, s => .mk i fc ors l s srt r

def Query.withLimit : Query → Int → Query
  | .mk i fc ors _ s srt r, l => .mk i fc ors l s srt r

def QueryList.push : QueryList → Query → QueryList
  | .nil, q => .cons q .nil
  | .cons a rest, q => .cons a (rest.push q)

def Query.withOr : Query → Query → Query
  | .mk i fc ors l s srt r, sub => .mk i fc (ors.push sub) l s srt r

/-- `Query.Skip` (query.go 148-162).  A panic is modelled as an `error`
with the panic message. -/
def Query.Skip (q : Query) (amount : Int) : Except String Query :=
  if amount < 0 then .error "Skip must be set to a positive number"
  else if q.skip ≠ 0 then .error "Skip has already been set"
  else .ok (q.withSkip amount)

/-- `Query.Limit` (query.go 164-178). -/
def Query.Limit (q : Query) (amount : Int) : Except String Query :=
  if amount < 0 then .error "Limit must be set to a positive number"
  else if q.limit ≠ 0 then .error "Limit has already been set"
  else .ok (q.withLimit amount)

/-- `Query.Or` (query.go 283-292): panics when the attached query carries
a skip or limit value. -/
def Query.Or (q : Query) (query : Query) : Except String Query :=
  if query.skip ≠ 0 ∨ query.limit ≠ 0 then
    .error "Ored queries cannot contain skip or limit values"
  else .ok (q.withOr query)

/-- The values resolved by the direct-index criterion (the argument
`findByIndexQuery` passes to `fetchIndexValues`). -/
def critValues (c : Criterion) : List Val :=
  if c.operator == .inOp then c.values else [c.value]

end Badgerhold

/-! ## Theorems -/

namespace Badgerhold

/-! helper lemmas -/

theorem topErr_app_ne_conflict (e : Err) : (TopErr.app e) ≠ TopErr.conflict := by
  intro h; cases h

/-- C7 (code bug): the pre-TxGet-rewrite `TxGet` and the `TxInsert`
existence check do not pass engine errors through.  With a failing `tx.Get`
(the `degraded` flag), `TxInsert` reports `ErrKeyExists` although the key
is absent, and `TxGet` falls through to dereferencing the nil item instead
of returning the engine error — its own test `TestTxGetBadgerError`
expects `badger.ErrDiscardedTxn` back. -/
theorem C7_engine_error_not_passed_through :
    txInsert true ⟨[], [], []⟩ (Val.vint 1) ⟨false, none, []⟩ = .error .keyExists ∧
    txGet true ⟨[], [], []⟩ (Val.vint 1) = .error .panicNilItem := ⟨rfl, rfl⟩

/-- C5: updating a key that is not stored returns `ErrNotFound`.  The
transaction body fails before writing, so `Update` reports `ErrNotFound`
and leaves the store unchanged for every commit-outcome sequence. -/
theorem C5_update_absent_key (cs : List Bool) (st : Store) (key : Val) (data : Rec)
    (habsent : storeGet st key = none) :
    txUpdate st key data = .error .notFound ∧
    Update cs st key data = (st, some (.app .notFound)) := by
  have hbody : txUpdate st key data = .error .notFound := by
    unfold txUpdate; rw [habsent]
  refine ⟨hbody, ?_⟩
  cases cs with
  | nil => simp [Update, badgerUpdate, hbody]
  | cons c rest => simp [Update, badgerUpdate, hbody]

/-- C5 witness: the empty store at key 1. -/
theorem C5_update_absent_key_witness :
    storeGet ⟨[], [], []⟩ (Val.vint 1) = none ∧
    Update [] ⟨[], [], []⟩ (Val.vint 1) [] = (⟨[], [], []⟩, some (.app .notFound)) := by
  refine ⟨rfl, ?_⟩
  exact (C5_update_absent_key [] ⟨[], [], []⟩ (Val.vint 1) [] rfl).2

/-- C6 counterexample: `Delete` has no retry loop — a conflicting commit
surfaces `badger.ErrConflict` to the caller. -/
theorem C6_delete_surfaces_conflict :
    (Delete true ⟨[(Val.vint 1, [("F", Val.vint 1)])], [], []⟩ (Val.vint 1)).2 =
      some .conflict := rfl

/-- C6 (amended): `Insert`, `Update`, `Upsert` and `UpdateMatching` retry
their transaction on `badger.ErrConflict` until a commit succeeds, so a
conflict never reaches the caller; `Delete` and `DeleteMatching` lack the
retry loop and surface the conflict whenever their transaction body
succeeded. -/
theorem C6_conflict_retry (cs : List Bool) (st : Store) (key : Val) (d : DataArg)
    (data : Rec) (q : Query) (upd : Rec → Except Err Rec) :
    (Insert cs st key d).2 ≠ some .conflict ∧
    (Update cs st key data).2 ≠ some .conflict ∧
    (Upsert cs st key data).2 ≠ some .conflict ∧
    (UpdateMatching cs st q upd).2 ≠ some .conflict ∧
    ((txDelete st key).isOk → (Delete true st key).2 = some .conflict) ∧
    ((deleteQuery st q).isOk → (DeleteMatching true st q).2 = some .conflict) := by
  refine ⟨?_, ?_, ?_, ?_, ?_, ?_⟩
  · induction cs generalizing st with
    | nil =>
      unfold Insert badgerUpdate
      cases h : txInsert false st key d <;> simp [h, Except.map, topErr_app_ne_conflict]
    | cons c rest ih =>
      unfold Insert
      by_cases h : (badgerUpdate (fun s => (txInsert false s key d).map Prod.fst) c st).2 = some .conflict
      · simp [h, ih]
      · simp [h]
  · induction cs generalizing st with
    | nil =>
      unfold Update badgerUpdate
      cases h : txUpdate st key data <;> simp [h, topErr_app_ne_conflict]
    | cons c rest ih =>
      unfold Update
      by_cases h : (badgerUpdate (fun s => txUpdate s key data) c st).2 = some .conflict
      · simp [h, ih]
      · simp [h]
  · induction cs generalizing st with
    | nil =>
      unfold Upsert badgerUpdate
      cases h : txUpsert st key data <;> simp [h, topErr_app_ne_conflict]
    | cons c rest ih =>
      unfold Upsert
      by_cases h : (badgerUpdate (fun s => txUpsert s key data) c st).2 = some .conflict
      · simp [h, ih]
      · simp [h]
  · induction cs generalizing st with
    | nil =>
      unfold UpdateMatching badgerUpdate
      cases h : updateQuery st q upd <;> simp [h, topErr_app_ne_conflict]
    | cons c rest ih =>
      unfold UpdateMatching
      by_cases h : (badgerUpdate (fun s => updateQuery s q upd) c st).2 = some .conflict
      · simp [h, ih]
      · simp [h]
  · intro h
    unfold Delete badgerUpdate
    cases hd : txDelete st key with
    | error e => rw [hd] at h; cases h
    | ok st' => simp [hd]
  · intro h
    unfold DeleteMatching badgerUpdate
    cases hd : deleteQuery st q with
    | error e => rw [hd] at h; cases h
    | ok st' => simp [hd]

end Badgerhold

namespace Badgerhold

/-- helper: setField at the field -/
theorem setField_cons_eq (a : String) (b : Val) (rest : Rec) (v : Val) :
    setField ((a, b) :: rest) a v = (a, v) :: setField rest a v := by
  simp [setField]

theorem setField_cons_ne (a f : String) (b : Val) (rest : Rec) (v : Val) (hp : a ≠ f) :
    setField ((a, b) :: rest) f v = (a, b) :: setField rest f v := by
  simp [setField, hp]

theorem recLookup_setField_self (r : Rec) (f : String) (v : Val) (fv : Val)
    (h : recLookup r f = some fv) : recLookup (setField r f v) f = some v := by
  induction r with
  | nil => simp [recLookup] at h
  | cons p rest ih =>
    obtain ⟨a, b⟩ := p
    by_cases hp : a = f
    · subst hp
      rw [setField_cons_eq]
      simp [recLookup]
    · have h2 : recLookup rest f = some fv := by simpa [recLookup, hp] using h
      rw [setField_cons_ne a f b rest v hp]
      simpa [recLookup, hp] using ih h2

theorem recLookup_setField_other (r : Rec) (f g : String) (v : Val) (hg : g ≠ f) :
    recLookup (setField r f v) g = recLookup r g := by
  induction r with
  | nil => simp [setField, recLookup]
  | cons p rest ih =>
    obtain ⟨a, b⟩ := p
    by_cases hp : a = f
    · subst hp
      rw [setField_cons_eq]
      simpa [recLookup, Ne.symm hg] using ih
    · rw [setField_cons_ne a f b rest v hp]
      by_cases hpg : a = g
      · simp [recLookup, hpg]
      · simpa [recLookup, hpg] using ih

/-- C10: `TxInsert` on a fresh key stores exactly `insertSetKey data key`,
the input record with only the zero-valued key field backfilled with the
primary key: when the key field is settable, zero-valued and of the key's
kind it now holds the key, every other field reads back unchanged, and a
non-settable or absent key field leaves the record untouched. -/
theorem C10_insert_mutates_only_key_field (st : Store) (key : Val) (data : DataArg)
    (f : String) (hfresh : storeGet st key = none) :
    (∃ st', txInsert false st key data = .ok (st', insertSetKey data key)) ∧
    (data.settable = true → data.keyField = some f →
      ∀ fv, recLookup data.value f = some fv → sameKind fv key = true → fv = zeroOf fv →
        ((insertSetKey data key).value = setField data.value f key ∧
         recLookup (insertSetKey data key).value f = some key ∧
         (∀ g, g ≠ f → recLookup (insertSetKey data key).value g = recLookup data.value g) ∧
         (insertSetKey data key).settable = data.settable ∧
         (insertSetKey data key).keyField = data.keyField)) ∧
    ((data.settable = false ∨ data.keyField = none ∨
      (data.keyField = some f ∧ recLookup data.value f = none) ∨
      (data.keyField = some f ∧ ∀ fv, recLookup data.value f = some fv →
        sameKind fv key = false ∨ fv ≠ zeroOf fv)) →
      insertSetKey data key = data) := by
  refine ⟨?_, ?_, ?_⟩
  · refine ⟨indexAdd { st with records := st.records ++ [(key, data.value)] } key data.value, ?_⟩
    unfold txInsert txGetRaw
    simp [hfresh]
  · intro hset hkf fv hfv hkind hzero
    have hz2 : ¬ (fv ≠ zeroOf fv) := not_not_intro hzero
    have hval : insertSetKey data key = { data with value := setField data.value f key } := by
      unfold insertSetKey
      simp [hset, hkf, hfv, hkind, hz2]
    rw [hval]
    refine ⟨rfl, ?_, ?_, rfl, rfl⟩
    · exact recLookup_setField_self _ _ _ _ hfv
    · intro g hg; exact recLookup_setField_other _ _ _ _ hg
  · intro h
    unfold insertSetKey
    rcases h with h | h | ⟨h1, h2⟩ | ⟨h1, h2⟩
    · simp [h]
    · simp [h]
    · simp [h1, h2]
    · by_cases hs : data.settable
      · simp only [hs, h1]
        cases hfv : recLookup data.value f with
        | none => simp
        | some fv =>
          rcases h2 fv hfv with hk | hz
          · simp [hk]
          · simp [hz]
      · simp [hs]

end Badgerhold

namespace Badgerhold

/-- C8 counterexample: `Skip(0)` leaves the unset sentinel 0 in place, so
a later `Skip(3)` is accepted instead of panicking — the duplicate-call
panic only fires after a first non-zero Skip or Limit. -/
theorem C8_skip_reset_counterexample :
    ((Query.mk "" [] .nil 0 0 [] false).Skip 0 |>.bind (fun q => q.Skip 3)) =
      .ok (Query.mk "" [] .nil 0 3 [] false) := rfl

/-- C8 (amended): the builder validations of query.go — `Skip` and `Limit`
panic on a negative amount and on a second call whose first set a non-zero
value, and `Or` panics when the subquery carries skip or limit values. -/
theorem C8_builder_validation (q sub : Query) (amount : Int) :
    (amount < 0 → (q.Skip amount).isOk = false) ∧
    (q.skip ≠ 0 → (q.Skip amount).isOk = false) ∧
    (amount < 0 → (q.Limit amount).isOk = false) ∧
    (q.limit ≠ 0 → (q.Limit amount).isOk = false) ∧
    (sub.skip ≠ 0 ∨ sub.limit ≠ 0 → (q.Or sub).isOk = false) := by
  refine ⟨?_, ?_, ?_, ?_, ?_⟩ <;> intro h
  · simp [Query.Skip, h, Except.isOk, Except.toBool]
  · by_cases h2 : amount < 0 <;> simp [Query.Skip, h, h2, Except.isOk, Except.toBool]
  · simp [Query.Limit, h, Except.isOk, Except.toBool]
  · by_cases h2 : amount < 0 <;> simp [Query.Limit, h, h2, Except.isOk, Except.toBool]
  · simp [Query.Or, h, Except.isOk, Except.toBool]

/-- C8 witness: concrete panicking builder calls. -/
theorem C8_builder_validation_witness :
    (((Query.mk "" [] .nil 0 2 [] false).Skip 5).isOk = false) ∧
    (((Query.mk "" [] .nil 0 0 [] false).Skip (-1)).isOk = false) ∧
    (((Query.mk "" [] .nil 2 0 [] false).Limit 5).isOk = false) ∧
    (((Query.mk "" [] .nil 2 0 [] false).Or (Query.mk "" [] .nil 0 3 [] false)).isOk = false) := by
  refine ⟨?_, ?_, ?_, ?_⟩
  · exact (C8_builder_validation (Query.mk "" [] .nil 0 2 [] false)
      (Query.mk "" [] .nil 0 0 [] false) 5).2.1 (by decide)
  · exact (C8_builder_validation (Query.mk "" [] .nil 0 0 [] false)
      (Query.mk "" [] .nil 0 0 [] false) (-1)).1 (by decide)
  · exact (C8_builder_validation (Query.mk "" [] .nil 2 0 [] false)
      (Query.mk "" [] .nil 0 0 [] false) 5).2.2.2.1 (by decide)
  · exact (C8_builder_validation (Query.mk "" [] .nil 2 0 [] false)
      (Query.mk "" [] .nil 0 3 [] false) 5).2.2.2.2 (Or.inl (by decide))

/-- C9: when `sortFunction` hits a comparison error (cross-kind values)
it falls back to a lexicographic comparison of the `%s`-formatted strings
of the two values, continuing with the next sort field on a tie. -/
theorem C9_sort_type_mismatch_fallback (q : Query) (first second : Rec)
    (field : String) (rest : List String) (v o : Val) (e : Err)
    (hsort : q.sort = field :: rest)
    (hv : recLookup first field = some v) (ho : recLookup second field = some o)
    (hcmp : compare (if q.reverse then o else v) (if q.reverse then v else o) = .error e) :
    sortFunction q first second =
      (if sprintfS (if q.reverse then o else v) < sprintfS (if q.reverse then v else o)
       then true
       else if sprintfS (if q.reverse then o else v) = sprintfS (if q.reverse then v else o)
       then sortFunction.loop q first second rest
       else false) := by
  unfold sortFunction
  rw [hsort]
  conv_lhs => rw [sortFunction.loop.eq_def]
  simp [hv, ho, hcmp]

/-- C9 witness: an int sorts before a string by the `%s` fallback. -/
theorem C9_sort_type_mismatch_fallback_witness :
    compare (Val.vint 1) (Val.vstr "x") = .error .typeMismatch ∧
    sortFunction (Query.mk "" [] .nil 0 0 ["A"] false)
      [("A", Val.vint 1)] [("A", Val.vstr "x")] = true := by
  refine ⟨rfl, ?_⟩
  rw [C9_sort_type_mismatch_fallback (Query.mk "" [] .nil 0 0 ["A"] false)
    [("A", Val.vint 1)] [("A", Val.vstr "x")] "A" [] (Val.vint 1) (Val.vstr "x")
    Err.typeMismatch rfl rfl rfl rfl]
  have hlt : sprintfS (Val.vint 1) < sprintfS (Val.vstr "x") := by
    rw [String.lt_iff_toList_lt]
    decide
  simp only [Query.reverse, Bool.false_eq_true, if_false]
  rw [if_pos hlt]

end Badgerhold

namespace Badgerhold

/-! C4 lemma stack -/

theorem lookupEntry_setEntry (ixs : List ((String × Val) × List Val))
    (ik ik2 : String × Val) (ks : List Val) :
    lookupEntry (setEntry ixs ik ks) ik2 = if ik2 = ik then ks else lookupEntry ixs ik2 := by
  unfold lookupEntry setEntry
  rw [List.find?_cons]
  by_cases h : ik2 = ik
  · simp [h]
  · simp only [Ne.symm h, decide_eq_true_eq]
    simp [Ne.symm h, if_neg h]

theorem mem_keyListAdd (ks : List Val) (k k' : Val) :
    k' ∈ keyListAdd ks k ↔ k' ∈ ks ∨ k' = k := by
  unfold keyListAdd
  by_cases h : k ∈ ks
  · simp [h]
    intro he; subst he; exact h
  · simp [h, or_comm]

theorem nodup_keyListAdd (ks : List Val) (k : Val) (h : ks.Nodup) :
    (keyListAdd ks k).Nodup := by
  unfold keyListAdd
  by_cases hm : k ∈ ks
  · simpa [hm]
  · simpa [hm] using h

end Badgerhold

namespace Badgerhold

theorem mem_lookupEntry_addFold (k : Val) (record : Rec) :
    ∀ (fs : List String) (ixs : List ((String × Val) × List Val))
      (g : String) (v : Val) (k' : Val),
    (k' ∈ lookupEntry (fs.foldl (indexAddStep k record) ixs) (g, v) ↔
      (k' ∈ lookupEntry ixs (g, v) ∨ (k' = k ∧ g ∈ fs ∧ recLookup record g = some v)))
  | [], ixs, g, v, k' => by simp
  | f :: fs, ixs, g, v, k' => by
    rw [List.foldl_cons,
      mem_lookupEntry_addFold k record fs (indexAddStep k record ixs f) g v k']
    unfold indexAddStep
    have hcons : g ∈ f :: fs ∧ recLookup record g = some v ↔
        ((g = f ∧ recLookup record f = some v) ∨ (g ∈ fs ∧ recLookup record g = some v)) := by
      constructor
      · rintro ⟨hmem, hrec⟩
        rcases List.mem_cons.mp hmem with he | hm
        · exact Or.inl ⟨he, he ▸ hrec⟩
        · exact Or.inr ⟨hm, hrec⟩
      · rintro (⟨he, hrec⟩ | ⟨hm, hrec⟩)
        · exact ⟨by simp [he], he ▸ hrec⟩
        · exact ⟨List.mem_cons_of_mem f hm, hrec⟩
    cases hf : recLookup record f with
    | none =>
      constructor
      · rintro (h | ⟨h1, h2, h3⟩)
        · exact Or.inl h
        · exact Or.inr ⟨h1, List.mem_cons_of_mem f h2, h3⟩
      · rintro (h | ⟨h1, h2, h3⟩)
        · exact Or.inl h
        · rcases hcons.mp ⟨h2, h3⟩ with ⟨he, hrec⟩ | ⟨hm, hrec⟩
          · rw [hf] at hrec; cases hrec
          · exact Or.inr ⟨h1, hm, hrec⟩
    | some vf =>
      rw [lookupEntry_setEntry]
      by_cases hgv : ((g, v) : String × Val) = (f, vf)
      · rw [if_pos hgv, mem_keyListAdd, hgv.symm]
        obtain ⟨hg, hv⟩ := Prod.mk.injEq .. ▸ hgv
        have hrecg : recLookup record g = some v := by rw [hg, hv]; exact hf
        have hginc : g ∈ f :: fs := by simp [hg]
        constructor
        · rintro ((h | h) | ⟨h1, _, _⟩)
          · exact Or.inl h
          · exact Or.inr ⟨h, hginc, hrecg⟩
          · exact Or.inr ⟨h1, hginc, hrecg⟩
        · rintro (h | ⟨h1, _, _⟩)
          · exact Or.inl (Or.inl h)
          · exact Or.inl (Or.inr h1)
      · rw [if_neg hgv]
        constructor
        · rintro (h | ⟨h1, h2, h3⟩)
          · exact Or.inl h
          · exact Or.inr ⟨h1, List.mem_cons_of_mem f h2, h3⟩
        · rintro (h | ⟨h1, h2, h3⟩)
          · exact Or.inl h
          · rcases hcons.mp ⟨h2, h3⟩ with ⟨he, hrec⟩ | ⟨hm, hrec⟩
            · exfalso
              rw [he] at h3
              rw [hf] at h3
              have hv : v = vf := by injection h3.symm
              exact hgv (by rw [he, hv])
            · exact Or.inr ⟨h1, hm, hrec⟩

end Badgerhold

namespace Badgerhold

theorem nodup_lookupEntry_delStep (k : Val) (record : Rec)
    (ixs : List ((String × Val) × List Val)) (f : String)
    (h : ∀ ik, (lookupEntry ixs ik).Nodup) :
    ∀ ik, (lookupEntry (indexDeleteStep k record ixs f) ik).Nodup := by
  intro ik
  unfold indexDeleteStep
  cases hf : recLookup record f with
  | none => exact h ik
  | some vf =>
    rw [lookupEntry_setEntry]
    by_cases hik : ik = (f, vf)
    · rw [if_pos hik]
      exact (h (f, vf)).erase k
    · rw [if_neg hik]
      exact h ik

theorem mem_lookupEntry_delFold (k : Val) (record : Rec) :
    ∀ (fs : List String) (ixs : List ((String × Val) × List Val)),
    (∀ ik, (lookupEntry ixs ik).Nodup) →
    ∀ (g : String) (v : Val) (k' : Val),
    (k' ∈ lookupEntry (fs.foldl (indexDeleteStep k record) ixs) (g, v) ↔
      (k' ∈ lookupEntry ixs (g, v) ∧ ¬(k' = k ∧ g ∈ fs ∧ recLookup record g = some v)))
  | [], ixs, _, g, v, k' => by simp
  | f :: fs, ixs, hnd, g, v, k' => by
    rw [List.foldl_cons,
      mem_lookupEntry_delFold k record fs (indexDeleteStep k record ixs f)
        (nodup_lookupEntry_delStep k record ixs f hnd) g v k']
    unfold indexDeleteStep
    have hcons : g ∈ f :: fs ∧ recLookup record g = some v ↔
        ((g = f ∧ recLookup record f = some v) ∨ (g ∈ fs ∧ recLookup record g = some v)) := by
      constructor
      · rintro ⟨hmem, hrec⟩
        rcases List.mem_cons.mp hmem with he | hm
        · exact Or.inl ⟨he, he ▸ hrec⟩
        · exact Or.inr ⟨hm, hrec⟩
      · rintro (⟨he, hrec⟩ | ⟨hm, hrec⟩)
        · exact ⟨by simp [he], he ▸ hrec⟩
        · exact ⟨List.mem_cons_of_mem f hm, hrec⟩
    cases hf : recLookup record f with
    | none =>
      constructor
      · rintro ⟨h1, h2⟩
        refine ⟨h1, ?_⟩
        rintro ⟨hk, hmem, hrec⟩
        rcases hcons.mp ⟨hmem, hrec⟩ with ⟨he, hrecf⟩ | ⟨hm, hrecg⟩
        · rw [hf] at hrecf; cases hrecf
        · exact h2 ⟨hk, hm, hrecg⟩
      · rintro ⟨h1, h2⟩
        exact ⟨h1, fun ⟨hk, hm, hrec⟩ => h2 ⟨hk, List.mem_cons_of_mem f hm, hrec⟩⟩
    | some vf =>
      rw [lookupEntry_setEntry]
      by_cases hgv : ((g, v) : String × Val) = (f, vf)
      · rw [if_pos hgv, (hnd (f, vf)).mem_erase_iff, hgv.symm]
        obtain ⟨hg, hv⟩ := Prod.mk.injEq .. ▸ hgv
        have hrecg : recLookup record g = some v := by rw [hg, hv]; exact hf
        have hginc : g ∈ f :: fs := by simp [hg]
        constructor
        · rintro ⟨⟨hne, h1⟩, _⟩
          exact ⟨h1, fun ⟨hk, _, _⟩ => hne hk⟩
        · rintro ⟨h1, h2⟩
          have hne : k' ≠ k := fun hk => h2 ⟨hk, hginc, hrecg⟩
          refine ⟨⟨hne, h1⟩, ?_⟩
          rintro ⟨hk, _, _⟩
          exact hne hk
      · rw [if_neg hgv]
        constructor
        · rintro ⟨h1, h2⟩
          refine ⟨h1, ?_⟩
          rintro ⟨hk, hmem, hrec⟩
          rcases hcons.mp ⟨hmem, hrec⟩ with ⟨he, hrecf⟩ | ⟨hm, hrecg⟩
          · rw [he] at hrec
            rw [hf] at hrec
            have hv : v = vf := by injection hrec.symm
            exact hgv (by rw [he, hv])
          · exact h2 ⟨hk, hm, hrecg⟩
        · rintro ⟨h1, h2⟩
          exact ⟨h1, fun ⟨hk, hm, hrec⟩ => h2 ⟨hk, List.mem_cons_of_mem f hm, hrec⟩⟩

end Badgerhold

namespace Badgerhold

theorem storeGet_mem (st : Store) (k : Val) (r : Rec) (h : storeGet st k = some r) :
    (k, r) ∈ st.records := by
  unfold storeGet at h
  cases hf : st.records.find? (fun p => p.1 = k) with
  | none => rw [hf] at h; cases h
  | some p =>
    rw [hf] at h
    injection h with h
    have hp := List.find?_some hf
    have hmem := List.mem_of_find?_eq_some hf
    have : p.1 = k := by simpa using hp
    rw [← h, ← this]
    simpa using hmem

theorem find?_key_of_mem (l : List (Val × Rec)) (k : Val) (r : Rec)
    (hnd : (l.map Prod.fst).Nodup) (h : (k, r) ∈ l) :
    l.find? (fun p => p.1 = k) = some (k, r) := by
  induction l with
  | nil => cases h
  | cons p rest ih =>
    rcases List.mem_cons.mp h with he | hm
    · rw [← he]
      simp [List.find?_cons]
    · have hp : ¬ p.1 = k := by
        intro he
        have hkm : (k, r).1 ∈ rest.map Prod.fst := List.mem_map_of_mem Prod.fst hm
        rw [List.map_cons] at hnd
        exact (List.nodup_cons.mp hnd).1 (he.symm ▸ hkm)
      simp only [List.find?_cons, decide_eq_false hp]
      exact ih (List.nodup_cons.mp (List.map_cons Prod.fst p rest ▸ hnd)).2 hm

theorem mem_storeGet (st : Store) (k : Val) (r : Rec)
    (hnd : (st.records.map Prod.fst).Nodup) (h : (k, r) ∈ st.records) :
    storeGet st k = some r := by
  unfold storeGet
  rw [find?_key_of_mem st.records k r hnd h]

theorem mem_setRecord_iff (l : List (Val × Rec)) (key : Val) (data : Rec)
    (k' : Val) (r' : Rec) :
    (k', r') ∈ setRecord l key data ↔
      ((k' = key ∧ r' = data ∧ ∃ r0, (key, r0) ∈ l) ∨ (k' ≠ key ∧ (k', r') ∈ l)) := by
  induction l with
  | nil => simp [setRecord]
  | cons p rest ih =>
    obtain ⟨a, b⟩ := p
    unfold setRecord at ih ⊢
    rw [List.map_cons]
    by_cases ha : a = key
    · subst ha
      simp only [if_pos rfl]
      constructor
      · intro hm
        rcases List.mem_cons.mp hm with he | hm2
        · have h1 : k' = a := by injection he
          have h2 : r' = data := by injection he
          exact Or.inl ⟨h1, h2, ⟨b, List.mem_cons_self _ _⟩⟩
        · rcases ih.mp hm2 with ⟨h1, h2, ⟨r0, h3⟩⟩ | ⟨h1, h2⟩
          · exact Or.inl ⟨h1, h2, ⟨r0, List.mem_cons_of_mem _ h3⟩⟩
          · exact Or.inr ⟨h1, List.mem_cons_of_mem _ h2⟩
      · rintro (⟨h1, h2, _⟩ | ⟨h1, h2⟩)
        · subst h1; subst h2; exact List.mem_cons_self _ _
        · rcases List.mem_cons.mp h2 with he | hm2
          · exfalso; exact h1 (by injection he)
          · exact List.mem_cons_of_mem _ (ih.mpr (Or.inr ⟨h1, hm2⟩))
    · rw [if_neg ha]
      constructor
      · intro hm
        rcases List.mem_cons.mp hm with he | hm2
        · have h1 : k' = a := by injection he
          exact Or.inr ⟨h1 ▸ ha, List.mem_cons.mpr (Or.inl he)⟩
        · rcases ih.mp hm2 with ⟨h1, h2, ⟨r0, h3⟩⟩ | ⟨h1, h2⟩
          · exact Or.inl ⟨h1, h2, ⟨r0, List.mem_cons_of_mem _ h3⟩⟩
          · exact Or.inr ⟨h1, List.mem_cons_of_mem _ h2⟩
      · rintro (⟨h1, h2, ⟨r0, h3⟩⟩ | ⟨h1, h2⟩)
        · rcases List.mem_cons.mp h3 with he | hm2
          · exfalso; exact ha (by injection he.symm)
          · exact List.mem_cons_of_mem _ (ih.mpr (Or.inl ⟨h1, h2, ⟨r0, hm2⟩⟩))
        · rcases List.mem_cons.mp h2 with he | hm2
          · exact List.mem_cons.mpr (Or.inl he)
          · exact List.mem_cons_of_mem _ (ih.mpr (Or.inr ⟨h1, hm2⟩))

end Badgerhold

namespace Badgerhold

theorem any_key_of_storeGet (st : Store) (key : Val) (old : Rec)
    (hold : storeGet st key = some old) :
    st.records.any (fun p => p.1 = key) = true := by
  have hm := storeGet_mem st key old hold
  exact List.any_eq_true.mpr ⟨(key, old), hm, by simp⟩

/-- C4: a successful `TxUpdate` (and the equal-by-unfolding `TxUpsert`)
of an existing record moves the primary key from the old field value's
index entry to the new value's entry, and the index invariant holds again
for every declared index afterwards. -/
theorem C4_update_replaces_index_entries (st : Store) (key : Val) (data old : Rec)
    (f : String) (vold : Val)
    (hkeys : (st.records.map Prod.fst).Nodup)
    (hcons : ∀ g ∈ st.declared, indexConsistent st g)
    (hnd : ∀ ik, (lookupEntry st.indexes ik).Nodup)
    (hold : storeGet st key = some old)
    (hf : f ∈ st.declared)
    (hvold : recLookup old f = some vold)
    (hchange : recLookup data f ≠ some vold) :
    ∃ st', txUpdate st key data = .ok st' ∧ txUpsert st key data = .ok st' ∧
      key ∉ entryKeys st' f vold ∧
      st'.declared = st.declared ∧
      (∀ g ∈ st'.declared, indexConsistent st' g) := by
  refine ⟨{ records := setRecord st.records key data,
            indexes := st.declared.foldl (indexAddStep key data)
              (st.declared.foldl (indexDeleteStep key old) st.indexes),
            declared := st.declared }, ?_, ?_, ?_, rfl, ?_⟩
  case _ =>
    simp only [txUpdate, hold, indexDelete, indexAdd]
  case _ =>
    simp only [txUpsert, hold, indexDelete, indexAdd, putRecord,
      any_key_of_storeGet st key old hold, if_true]
  all_goals {
    have hchar : ∀ (g : String) (v : Val) (k' : Val),
        (k' ∈ lookupEntry (st.declared.foldl (indexAddStep key data)
            (st.declared.foldl (indexDeleteStep key old) st.indexes)) (g, v) ↔
          ((k' ∈ entryKeys st g v ∧
              ¬(k' = key ∧ g ∈ st.declared ∧ recLookup old g = some v)) ∨
           (k' = key ∧ g ∈ st.declared ∧ recLookup data g = some v))) := by
      intro g v k'
      rw [mem_lookupEntry_addFold key data st.declared
            (st.declared.foldl (indexDeleteStep key old) st.indexes) g v k',
          mem_lookupEntry_delFold key old st.declared st.indexes hnd g v k']
      rfl
    have huniq : ∀ r0, (key, r0) ∈ st.records → r0 = old := by
      intro r0 h0
      have h1 := mem_storeGet st key r0 hkeys h0
      rw [hold] at h1
      injection h1 with h2
      exact h2.symm
    first
    | -- key not in the old-value entry
      { intro hmem
        rcases (hchar f vold key).mp hmem with ⟨_, h2⟩ | ⟨_, _, h3⟩
        · exact h2 ⟨rfl, hf, hvold⟩
        · exact hchange h3 }
    | -- consistency preserved
      { intro g hg v k'
        constructor
        · intro hmem
          rcases (hchar g v k').mp hmem with ⟨h1, h2⟩ | ⟨hk, _, h3⟩
          · rcases (hcons g hg v k').mp h1 with ⟨r, hr, hrv⟩
            by_cases hk : k' = key
            · exfalso
              have : r = old := huniq r (hk ▸ hr)
              exact h2 ⟨hk, hg, this ▸ hrv⟩
            · exact ⟨r, (mem_setRecord_iff st.records key data k' r).mpr
                (Or.inr ⟨hk, hr⟩), hrv⟩
          · exact ⟨data, (mem_setRecord_iff st.records key data k' data).mpr
              (Or.inl ⟨hk, rfl, ⟨old, storeGet_mem st key old hold⟩⟩), h3⟩
        · rintro ⟨r', hmem, hrv⟩
          rcases (mem_setRecord_iff st.records key data k' r').mp hmem with
            ⟨hk, hr, _⟩ | ⟨hne, hm⟩
          · exact (hchar g v k').mpr (Or.inr ⟨hk, hg, hr ▸ hrv⟩)
          · exact (hchar g v k').mpr
              (Or.inl ⟨(hcons g hg v k').mpr ⟨r', hm, hrv⟩,
                fun h => hne h.1⟩) }
  }

end Badgerhold

namespace Badgerhold

/-- C4 witness: a one-record store with one declared index. -/
theorem C4_witness :
    ∃ st', txUpdate ⟨[(Val.vint 1, [("A", Val.vstr "x")])],
        [(("A", Val.vstr "x"), [Val.vint 1])], ["A"]⟩ (Val.vint 1) [("A", Val.vstr "y")] = .ok st' ∧
      txUpsert ⟨[(Val.vint 1, [("A", Val.vstr "x")])],
        [(("A", Val.vstr "x"), [Val.vint 1])], ["A"]⟩ (Val.vint 1) [("A", Val.vstr "y")] = .ok st' ∧
      Val.vint 1 ∉ entryKeys st' "A" (Val.vstr "x") ∧
      st'.declared = ["A"] ∧
      (∀ g ∈ st'.declared, indexConsistent st' g) := by
  have hcons : ∀ g ∈ (⟨[(Val.vint 1, [("A", Val.vstr "x")])],
      [(("A", Val.vstr "x"), [Val.vint 1])], ["A"]⟩ : Store).declared,
      indexConsistent ⟨[(Val.vint 1, [("A", Val.vstr "x")])],
        [(("A", Val.vstr "x"), [Val.vint 1])], ["A"]⟩ g := by
    intro g hg v k
    have hga : g = "A" := by simpa using hg
    subst hga
    constructor
    · intro hk
      by_cases hv : v = Val.vstr "x"
      · subst hv
        have : k = Val.vint 1 := by
          simpa [entryKeys, lookupEntry, List.find?] using hk
        subst this
        exact ⟨[("A", Val.vstr "x")], by simp, rfl⟩
      · exfalso
        have hne : ¬ ((("A", Val.vstr "x") : String × Val) = ("A", v)) := by
          simp [Ne.symm hv]
        simp [entryKeys, lookupEntry, List.find?, hne] at hk
    · rintro ⟨r, hr, hrv⟩
      have hkr : (k, r) = (Val.vint 1, [("A", Val.vstr "x")]) := by simpa using hr
      have hk : k = Val.vint 1 := by injection hkr
      have hrr : r = [("A", Val.vstr "x")] := by injection hkr
      subst hk; subst hrr
      have hv : v = Val.vstr "x" := by
        have := hrv
        simp [recLookup] at this
        exact this.symm
      subst hv
      simp [entryKeys, lookupEntry, List.find?]
  have hnd : ∀ ik, (lookupEntry ((⟨[(Val.vint 1, [("A", Val.vstr "x")])],
      [(("A", Val.vstr "x"), [Val.vint 1])], ["A"]⟩ : Store)).indexes ik).Nodup := by
    intro ik
    by_cases h : (("A", Val.vstr "x") : String × Val) = ik
    · simp [lookupEntry, List.find?, h]
    · simp [lookupEntry, List.find?, h]
  exact C4_update_replaces_index_entries _ (Val.vint 1) [("A", Val.vstr "y")]
    [("A", Val.vstr "x")] "A" (Val.vstr "x")
    (by decide) hcons hnd rfl (by decide) rfl (by decide)

end Badgerhold

namespace Badgerhold

/-- C6 witness: a retried Insert hides the conflict, Delete surfaces it. -/
theorem C6_conflict_retry_witness :
    (Insert [true, true] ⟨[], [], []⟩ (Val.vint 1) ⟨false, none, []⟩).2 ≠ some .conflict ∧
    (Delete true ⟨[(Val.vint 1, [])], [], []⟩ (Val.vint 1)).2 = some .conflict := by
  refine ⟨(C6_conflict_retry [true, true] ⟨[], [], []⟩ (Val.vint 1) ⟨false, none, []⟩
    [] (Query.mk "" [] .nil 0 0 [] false) (fun r => .ok r)).1, ?_⟩
  exact (C6_conflict_retry [] ⟨[(Val.vint 1, [])], [], []⟩ (Val.vint 1) ⟨false, none, []⟩
    [] (Query.mk "" [] .nil 0 0 [] false) (fun r => .ok r)).2.2.2.2.1 (by rfl)

/-- C10 witness: key backfill on a concrete two-field record. -/
theorem C10_insert_mutates_only_key_field_witness :
    (∃ st', txInsert false ⟨[], [], []⟩ (Val.vint 7)
        ⟨true, some "ID", [("ID", Val.vint 0), ("B", Val.vstr "b")]⟩ =
        .ok (st', insertSetKey ⟨true, some "ID", [("ID", Val.vint 0), ("B", Val.vstr "b")]⟩
          (Val.vint 7))) ∧
    recLookup (insertSetKey ⟨true, some "ID", [("ID", Val.vint 0), ("B", Val.vstr "b")]⟩
      (Val.vint 7)).value "ID" = some (Val.vint 7) ∧
    recLookup (insertSetKey ⟨true, some "ID", [("ID", Val.vint 0), ("B", Val.vstr "b")]⟩
      (Val.vint 7)).value "B" = some (Val.vstr "b") ∧
    insertSetKey ⟨false, some "ID", [("ID", Val.vint 0)]⟩ (Val.vint 7) =
      ⟨false, some "ID", [("ID", Val.vint 0)]⟩ := by
  refine ⟨?_, ?_, ?_, ?_⟩
  · exact (C10_insert_mutates_only_key_field ⟨[], [], []⟩ (Val.vint 7)
      ⟨true, some "ID", [("ID", Val.vint 0), ("B", Val.vstr "b")]⟩ "ID" rfl).1
  · exact ((C10_insert_mutates_only_key_field ⟨[], [], []⟩ (Val.vint 7)
      ⟨true, some "ID", [("ID", Val.vint 0), ("B", Val.vstr "b")]⟩ "ID" rfl).2.1
      rfl rfl (Val.vint 0) rfl rfl rfl).2.1
  · have h := ((C10_insert_mutates_only_key_field ⟨[], [], []⟩ (Val.vint 7)
      ⟨true, some "ID", [("ID", Val.vint 0), ("B", Val.vstr "b")]⟩ "ID" rfl).2.1
      rfl rfl (Val.vint 0) rfl rfl rfl).2.2.1 "B" (by decide)
    rw [h]
    rfl
  · exact (C10_insert_mutates_only_key_field ⟨[], [], []⟩ (Val.vint 7)
      ⟨false, some "ID", [("ID", Val.vint 0)]⟩ "ID" rfl).2.2 (Or.inl rfl)

end Badgerhold

namespace Badgerhold

theorem query_size_eq (q : Query) :
    q.size = QueryList.size q.ors + (if q.sort.isEmpty then 1 else 2) := by
  cases q
  rfl

theorem queryLoop_newKeys (q : Query) (retr : List Val) :
    ∀ (rows : List (Val × Rec)) (skip limit : Int) (em : List (Val × Rec))
      (nk : List Val) (s l : Int),
    queryLoop q retr rows skip limit = .ok (em, nk, s, l) → nk = em.map Prod.fst
  | [], skip, limit, em, nk, s, l => by
    intro h
    simp only [queryLoop, Except.ok.injEq, Prod.mk.injEq] at h
    obtain ⟨h1, h2, -, -⟩ := h
    simp [← h1, ← h2]
  | (k, v) :: rest, skip, limit, em, nk, s, l => by
    intro h
    simp only [queryLoop] at h
    by_cases hk : k ∈ retr
    · rw [if_pos hk] at h
      exact queryLoop_newKeys q retr rest skip limit em nk s l h
    · rw [if_neg hk] at h
      cases hm : matchesAllFields q k v with
      | error e => rw [hm] at h; cases h
      | ok b =>
        rw [hm] at h
        cases b with
        | false => exact queryLoop_newKeys q retr rest skip limit em nk s l h
        | true =>
          by_cases hs : skip > 0
          · rw [if_pos hs] at h
            exact queryLoop_newKeys q retr rest (skip - 1) limit em nk s l h
          · rw [if_neg hs] at h
            by_cases hl : q.limit ≠ 0 ∧ (if q.limit ≠ 0 then limit - 1 else limit) = 0
            · rw [if_pos hl] at h
              simp only [Except.ok.injEq, Prod.mk.injEq] at h
              obtain ⟨h1, h2, -, -⟩ := h
              simp [← h1, ← h2]
            · rw [if_neg hl] at h
              cases hrec : queryLoop q retr rest skip
                  (if q.limit ≠ 0 then limit - 1 else limit) with
              | error e => rw [hrec] at h; cases h
              | ok t =>
                obtain ⟨em2, nk2, s2, l2⟩ := t
                rw [hrec] at h
                simp only [Except.ok.injEq, Prod.mk.injEq] at h
                obtain ⟨h1, h2, -, -⟩ := h
                have hrec2 := queryLoop_newKeys q retr rest skip
                  (if q.limit ≠ 0 then limit - 1 else limit) em2 nk2 s2 l2 hrec
                simp [← h1, ← h2, hrec2]

end Badgerhold

namespace Badgerhold

theorem queryLoop_sublist (q : Query) (retr : List Val) :
    ∀ (rows : List (Val × Rec)) (skip limit : Int) (em : List (Val × Rec))
      (nk : List Val) (s l : Int),
    queryLoop q retr rows skip limit = .ok (em, nk, s, l) → em.Sublist rows
  | [], skip, limit, em, nk, s, l => by
    intro h
    simp only [queryLoop, Except.ok.injEq, Prod.mk.injEq] at h
    obtain ⟨h1, -, -, -⟩ := h
    simp [← h1]
  | (k, v) :: rest, skip, limit, em, nk, s, l => by
    intro h
    simp only [queryLoop] at h
    by_cases hk : k ∈ retr
    · rw [if_pos hk] at h
      exact (queryLoop_sublist q retr rest skip limit em nk s l h).cons (k, v)
    · rw [if_neg hk] at h
      cases hm : matchesAllFields q k v with
      | error e => rw [hm] at h; cases h
      | ok b =>
        rw [hm] at h
        cases b with
        | false => exact (queryLoop_sublist q retr rest skip limit em nk s l h).cons (k, v)
        | true =>
          by_cases hs : skip > 0
          · rw [if_pos hs] at h
            exact (queryLoop_sublist q retr rest (skip - 1) limit em nk s l h).cons (k, v)
          · rw [if_neg hs] at h
            by_cases hl : q.limit ≠ 0 ∧ (if q.limit ≠ 0 then limit - 1 else limit) = 0
            · rw [if_pos hl] at h
              simp only [Except.ok.injEq, Prod.mk.injEq] at h
              obtain ⟨h1, -, -, -⟩ := h
              rw [← h1]
              exact (List.nil_sublist rest).cons₂ (k, v)
            · rw [if_neg hl] at h
              cases hrec : queryLoop q retr rest skip
                  (if q.limit ≠ 0 then limit - 1 else limit) with
              | error e => rw [hrec] at h; cases h
              | ok t =>
                obtain ⟨em2, nk2, s2, l2⟩ := t
                rw [hrec] at h
                simp only [Except.ok.injEq, Prod.mk.injEq] at h
                obtain ⟨h1, -, -, -⟩ := h
                rw [← h1]
                exact (queryLoop_sublist q retr rest skip
                  (if q.limit ≠ 0 then limit - 1 else limit) em2 nk2 s2 l2 hrec).cons₂ (k, v)

theorem queryLoop_not_retrieved (q : Query) (retr : List Val) :
    ∀ (rows : List (Val × Rec)) (skip limit : Int) (em : List (Val × Rec))
      (nk : List Val) (s l : Int),
    queryLoop q retr rows skip limit = .ok (em, nk, s, l) →
    ∀ kv ∈ em, kv.1 ∉ retr
  | [], skip, limit, em, nk, s, l => by
    intro h
    simp only [queryLoop, Except.ok.injEq, Prod.mk.injEq] at h
    obtain ⟨h1, -, -, -⟩ := h
    simp [← h1]
  | (k, v) :: rest, skip, limit, em, nk, s, l => by
    intro h
    simp only [queryLoop] at h
    by_cases hk : k ∈ retr
    · rw [if_pos hk] at h
      exact queryLoop_not_retrieved q retr rest skip limit em nk s l h
    · rw [if_neg hk] at h
      cases hm : matchesAllFields q k v with
      | error e => rw [hm] at h; cases h
      | ok b =>
        rw [hm] at h
        cases b with
        | false => exact queryLoop_not_retrieved q retr rest skip limit em nk s l h
        | true =>
          by_cases hs : skip > 0
          · rw [if_pos hs] at h
            exact queryLoop_not_retrieved q retr rest (skip - 1) limit em nk s l h
          · rw [if_neg hs] at h
            by_cases hl : q.limit ≠ 0 ∧ (if q.limit ≠ 0 then limit - 1 else limit) = 0
            · rw [if_pos hl] at h
              simp only [Except.ok.injEq, Prod.mk.injEq] at h
              obtain ⟨h1, -, -, -⟩ := h
              intro kv hkv
              rw [← h1] at hkv
              rcases List.mem_singleton.mp hkv with rfl
              exact hk
            · rw [if_neg hl] at h
              cases hrec : queryLoop q retr rest skip
                  (if q.limit ≠ 0 then limit - 1 else limit) with
              | error e => rw [hrec] at h; cases h
              | ok t =>
                obtain ⟨em2, nk2, s2, l2⟩ := t
                rw [hrec] at h
                simp only [Except.ok.injEq, Prod.mk.injEq] at h
                obtain ⟨h1, -, -, -⟩ := h
                intro kv hkv
                rw [← h1] at hkv
                rcases List.mem_cons.mp hkv with rfl | hmem
                · exact hk
                · exact queryLoop_not_retrieved q retr rest skip
                    (if q.limit ≠ 0 then limit - 1 else limit) em2 nk2 s2 l2 hrec kv hmem

end Badgerhold

namespace Badgerhold

theorem runQueryF_noOrs (n : Nat) (st : Store) (q : Query) (retr : List Val) (skip : Int)
    (hsort : q.sort = []) (hidx : q.index = "") (hors : q.ors = .nil) :
    runQueryF (n + 1) st q retr skip =
      match queryLoop q retr st.records skip (q.limit - retr.length) with
      | .error e => .error e
      | .ok (em, _, _, _) => .ok em := by
  simp only [runQueryF, validateIndex, hidx, hsort, hors]
  norm_num

/-- C3 counterexample: two OR-branches both matched by the same record
(primary criteria match nothing) duplicate it. -/
theorem C3_sibling_or_duplicate :
    findQuery ⟨[(Val.vint 1, [("F", Val.vint 1)])], [], []⟩
      (Query.mk "" [("F", [⟨Op.eq, Val.vint 99, []⟩])]
        (.cons (Query.mk "" [("F", [⟨Op.eq, Val.vint 1, []⟩])] .nil 0 0 [] false)
          (.cons (Query.mk "" [("F", [⟨Op.ge, Val.vint 1, []⟩])] .nil 0 0 [] false) .nil))
        0 0 [] false) =
      .ok [(Val.vint 1, [("F", Val.vint 1)]), (Val.vint 1, [("F", Val.vint 1)])] := rfl

theorem runQueryF_oneOr (n : Nat) (st : Store) (q b : Query) (retr : List Val) (skip : Int)
    (hsort : q.sort = []) (hidx : q.index = "") (hors : q.ors = .cons b .nil)
    (hbsort : b.sort = []) (hbidx : b.index = "") (hbors : b.ors = .nil) :
    runQueryF (n + 2) st q retr skip =
      match queryLoop q retr st.records skip (q.limit - retr.length) with
      | .error e => .error e
      | .ok (em, nk, s, lrem) =>
        if ¬ q.limit = 0 ∧ lrem = 0 then .ok em
        else
          match queryLoop b (retr ++ nk) st.records s (b.limit - (retr ++ nk).length) with
          | .error e => .error e
          | .ok (em2, _, _, _) => .ok (em ++ em2) := by
  rw [show n + 2 = (n + 1) + 1 from rfl]
  simp only [runQueryF, validateIndex, hidx, hsort, hors, hbidx, hbsort, hbors,
    QueryList.toList, List.foldr]
  norm_num
  cases hq : queryLoop q retr st.records skip (q.limit - retr.length) with
  | error e => rfl
  | ok t =>
    obtain ⟨em, nk, s, lrem⟩ := t
    by_cases hl : ¬ q.limit = 0 ∧ lrem = 0
    · simp [hl]
    · simp only [if_neg hl]
      cases hq2 : queryLoop b (retr ++ nk) st.records s
          (b.limit - ((retr.length : Int) + (nk.length : Int))) with
      | error e => simp [hl, hq2, List.length_append]
      | ok t2 =>
        obtain ⟨em2, nk2, s2, lrem2⟩ := t2
        simp [hl, hq2, List.length_append]

/-- C3 (amended): the `retrievedKeys` set keeps a single OR-branch from
re-emitting the primary pass's records, so a query with one OR-branch
returns no duplicate primary keys.  (Sibling OR-branches do not share the
set — see the counterexample.) -/
theorem C3_or_dedup_single_branch (st : Store)
    (fc fcb : List (String × List Criterion)) (lim sk limb skb : Int) (rev revb : Bool)
    (hnodup : (st.records.map Prod.fst).Nodup)
    (l : List (Val × Rec))
    (h : findQuery st (Query.mk "" fc (.cons (Query.mk "" fcb .nil limb skb [] revb) .nil) lim sk [] rev) = .ok l) :
    (l.map Prod.fst).Nodup := by
  have hfbi : isFindByIndexQuery (Query.mk "" fc (.cons (Query.mk "" fcb .nil limb skb [] revb) .nil) lim sk [] rev) = false := rfl
  simp only [findQuery, hfbi, Bool.false_eq_true, if_false, runQuery] at h
  rw [show (Query.mk "" fc (.cons (Query.mk "" fcb .nil limb skb [] revb) .nil) lim sk [] rev).size = 1 + 2 from rfl] at h
  rw [runQueryF_oneOr 1 st (Query.mk "" fc (.cons (Query.mk "" fcb .nil limb skb [] revb) .nil) lim sk [] rev) (Query.mk "" fcb .nil limb skb [] revb) [] (Query.mk "" fc (.cons (Query.mk "" fcb .nil limb skb [] revb) .nil) lim sk [] rev).skip rfl rfl rfl rfl rfl rfl] at h
  cases hq1 : queryLoop (Query.mk "" fc (.cons (Query.mk "" fcb .nil limb skb [] revb) .nil) lim sk [] rev) [] st.records (Query.mk "" fc (.cons (Query.mk "" fcb .nil limb skb [] revb) .nil) lim sk [] rev).skip
      ((Query.mk "" fc (.cons (Query.mk "" fcb .nil limb skb [] revb) .nil) lim sk [] rev).limit - (List.length ([] : List Val) : Int)) with
  | error e =>
    simp only [hq1] at h
    cases h
  | ok t =>
    obtain ⟨em, nk, s, lrem⟩ := t
    simp only [hq1] at h
    have hemnd : (em.map Prod.fst).Nodup :=
      ((queryLoop_sublist _ _ _ _ _ _ _ _ _ hq1).map Prod.fst).nodup hnodup
    have hnk : nk = em.map Prod.fst := queryLoop_newKeys _ _ _ _ _ _ _ _ _ hq1
    by_cases hlim : ¬ (Query.mk "" fc (.cons (Query.mk "" fcb .nil limb skb [] revb) .nil) lim sk [] rev).limit = 0 ∧ lrem = 0
    · rw [if_pos hlim] at h
      injection h with h
      rw [← h]
      exact hemnd
    · rw [if_neg hlim] at h
      cases hq2 : queryLoop (Query.mk "" fcb .nil limb skb [] revb) ([] ++ nk) st.records s
          ((Query.mk "" fcb .nil limb skb [] revb).limit - (List.length (([] : List Val) ++ nk) : Int)) with
      | error e =>
        simp only [hq2] at h
        cases h
      | ok t2 =>
        obtain ⟨em2, nk2, s2, lrem2⟩ := t2
        simp only [hq2] at h
        injection h with h
        rw [← h]
        have hem2nd : (em2.map Prod.fst).Nodup :=
          ((queryLoop_sublist _ _ _ _ _ _ _ _ _ hq2).map Prod.fst).nodup hnodup
        have hdisj : ∀ x ∈ em.map Prod.fst, x ∉ em2.map Prod.fst := by
          intro x hx hx2
          rcases List.mem_map.mp hx2 with ⟨kv, hkv, hkx⟩
          have hnr := queryLoop_not_retrieved _ _ _ _ _ _ _ _ _ hq2 kv hkv
          apply hnr
          have hmemnk : kv.1 ∈ nk := by
            rw [hnk, hkx]
            exact hx
          simpa using hmemnk
        rw [List.map_append]
        exact List.Nodup.append hemnd hem2nd (List.disjoint_left.mpr hdisj)

end Badgerhold

namespace Badgerhold

theorem maf_loop_congr (q q' : Query) (key : Val) (value : Rec)
    (h : q.index = q'.index) :
    ∀ entries, matchesAllFields.loop q key value entries =
      matchesAllFields.loop q' key value entries
  | [] => rfl
  | (field, criteria) :: rest => by
    simp only [matchesAllFields.loop, h,
      maf_loop_congr q q' key value h rest]

theorem maf_congr (q q' : Query) (key : Val) (value : Rec)
    (h1 : q.index = q'.index) (h2 : q.fieldCriteria = q'.fieldCriteria)
    (h3 : q.ors.isEmpty = q'.ors.isEmpty) :
    matchesAllFields q key value = matchesAllFields q' key value := by
  unfold matchesAllFields Query.IsEmpty
  rw [h1, h2, h3, maf_loop_congr q q' key value h1 q'.fieldCriteria]

theorem queryLoop_page (q0 qp : Query)
    (hq0lim : q0.limit = 0) (hqplim : ¬ qp.limit = 0)
    (hmaf : ∀ k v, matchesAllFields qp k v = matchesAllFields q0 k v) :
    ∀ (rows : List (Val × Rec)) (s lim : Int) (M : List (Val × Rec))
      (nk0 : List Val) (s0 l0 : Int),
    0 ≤ s → 0 < lim →
    queryLoop q0 [] rows 0 0 = .ok (M, nk0, s0, l0) →
    ∃ nk s2 l2, queryLoop qp [] rows s lim =
      .ok ((M.drop s.toNat).take lim.toNat, nk, s2, l2)
  | [], s, lim, M, nk0, s0, l0 => by
    intro hs hlim h
    simp only [queryLoop, Except.ok.injEq, Prod.mk.injEq] at h
    obtain ⟨h1, -, -, -⟩ := h
    refine ⟨[], s, lim, ?_⟩
    simp [queryLoop, ← h1]
  | (k, v) :: rest, s, lim, M, nk0, s0, l0 => by
    intro hs hlim h
    simp only [queryLoop] at h
    rw [if_neg (List.not_mem_nil k)] at h
    cases hm : matchesAllFields q0 k v with
    | error e => rw [hm] at h; cases h
    | ok b =>
      rw [hm] at h
      cases b with
      | false =>
        obtain ⟨nk, s2, l2, hrec⟩ :=
          queryLoop_page q0 qp hq0lim hqplim hmaf rest s lim M nk0 s0 l0 hs hlim h
        refine ⟨nk, s2, l2, ?_⟩
        simp only [queryLoop]
        rw [if_neg (List.not_mem_nil k), hmaf k v, hm]
        exact hrec
      | true =>
        rw [if_neg (by omega : ¬ (0:Int) > 0)] at h
        rw [if_neg (by simp [hq0lim])] at h
        simp only [hq0lim] at h
        norm_num at h
        cases hrec0 : queryLoop q0 [] rest 0 0 with
        | error e => rw [hrec0] at h; cases h
        | ok t =>
          obtain ⟨M2, nk2, sr2, lr2⟩ := t
          rw [hrec0] at h
          simp only [Except.ok.injEq, Prod.mk.injEq] at h
          obtain ⟨h1, -, -, -⟩ := h
          by_cases hsp : s > 0
          · -- still skipping: recurse with s - 1
            obtain ⟨nk, s2, l2, hrec⟩ := queryLoop_page q0 qp hq0lim hqplim hmaf
              rest (s - 1) lim M2 nk2 sr2 lr2 (by omega) hlim hrec0
            refine ⟨nk, s2, l2, ?_⟩
            simp only [queryLoop]
            rw [if_neg (List.not_mem_nil k), hmaf k v, hm]
            rw [if_pos hsp]
            rw [hrec]
            have hdrop : (M.drop s.toNat) = (M2.drop (s - 1).toNat) := by
              rw [← h1]
              have : s.toNat = (s - 1).toNat + 1 := by omega
              rw [this]
              rfl
            rw [hdrop]
          · -- s = 0: emit
            have hs0 : s = 0 := by omega
            subst hs0
            by_cases hl1 : lim - 1 = 0
            · refine ⟨[k], 0, lim - 1, ?_⟩
              simp only [queryLoop]
              rw [if_neg (List.not_mem_nil k), hmaf k v, hm]
              rw [if_neg (by omega : ¬ (0:Int) > 0)]
              simp only [hqplim, if_pos hqplim]
              rw [if_pos ⟨hqplim, by simpa using hl1⟩]
              have hlim1 : lim = 1 := by omega
              have : ((M.drop (0:Int).toNat).take lim.toNat) = [(k, v)] := by
                rw [← h1, hlim1]
                rfl
              rw [this]
            · obtain ⟨nk, s2, l2, hrec⟩ := queryLoop_page q0 qp hq0lim hqplim hmaf
                rest 0 (lim - 1) M2 nk2 sr2 lr2 le_rfl (by omega) hrec0
              refine ⟨k :: nk, s2, l2, ?_⟩
              simp only [queryLoop]
              rw [if_neg (List.not_mem_nil k), hmaf k v, hm]
              rw [if_neg (by omega : ¬ (0:Int) > 0)]
              simp only [if_pos hqplim]
              have hcond : ¬ (¬ qp.limit = 0 ∧ lim - 1 = 0) := by
                intro hcon
                exact hl1 hcon.2
              rw [if_neg hcond]
              rw [hrec]
              have htake : ((M.drop (0:Int).toNat).take lim.toNat) =
                  (k, v) :: ((M2.drop (0:Int).toNat).take (lim - 1).toNat) := by
                rw [← h1]
                have : lim.toNat = (lim - 1).toNat + 1 := by omega
                rw [this]
                rfl
              rw [htake]

end Badgerhold

namespace Badgerhold

theorem queryLoop_skipOnly (q0 qp : Query)
    (hq0lim : q0.limit = 0) (hqplim : qp.limit = 0)
    (hmaf : ∀ k v, matchesAllFields qp k v = matchesAllFields q0 k v) :
    ∀ (rows : List (Val × Rec)) (s : Int) (M : List (Val × Rec))
      (nk0 : List Val) (s0 l0 : Int),
    0 ≤ s →
    queryLoop q0 [] rows 0 0 = .ok (M, nk0, s0, l0) →
    ∃ nk s2 l2, queryLoop qp [] rows s 0 = .ok (M.drop s.toNat, nk, s2, l2)
  | [], s, M, nk0, s0, l0 => by
    intro hs h
    simp only [queryLoop, Except.ok.injEq, Prod.mk.injEq] at h
    obtain ⟨h1, -, -, -⟩ := h
    refine ⟨[], s, 0, ?_⟩
    simp [queryLoop, ← h1]
  | (k, v) :: rest, s, M, nk0, s0, l0 => by
    intro hs h
    simp only [queryLoop] at h
    rw [if_neg (List.not_mem_nil k)] at h
    cases hm : matchesAllFields q0 k v with
    | error e => rw [hm] at h; cases h
    | ok b =>
      rw [hm] at h
      cases b with
      | false =>
        obtain ⟨nk, s2, l2, hrec⟩ :=
          queryLoop_skipOnly q0 qp hq0lim hqplim hmaf rest s M nk0 s0 l0 hs h
        refine ⟨nk, s2, l2, ?_⟩
        simp only [queryLoop]
        rw [if_neg (List.not_mem_nil k), hmaf k v, hm]
        exact hrec
      | true =>
        rw [if_neg (by omega : ¬ (0:Int) > 0)] at h
        rw [if_neg (by simp [hq0lim])] at h
        simp only [hq0lim] at h
        norm_num at h
        cases hrec0 : queryLoop q0 [] rest 0 0 with
        | error e => rw [hrec0] at h; cases h
        | ok t =>
          obtain ⟨M2, nk2, sr2, lr2⟩ := t
          rw [hrec0] at h
          simp only [Except.ok.injEq, Prod.mk.injEq] at h
          obtain ⟨h1, -, -, -⟩ := h
          by_cases hsp : s > 0
          · obtain ⟨nk, s2, l2, hrec⟩ := queryLoop_skipOnly q0 qp hq0lim hqplim hmaf
              rest (s - 1) M2 nk2 sr2 lr2 (by omega) hrec0
            refine ⟨nk, s2, l2, ?_⟩
            simp only [queryLoop]
            rw [if_neg (List.not_mem_nil k), hmaf k v, hm]
            rw [if_pos hsp]
            rw [hrec]
            have hdrop : (M.drop s.toNat) = (M2.drop (s - 1).toNat) := by
              rw [← h1]
              have hst : s.toNat = (s - 1).toNat + 1 := by omega
              rw [hst]
              rfl
            rw [hdrop]
          · have hs0 : s = 0 := by omega
            subst hs0
            obtain ⟨nk, s2, l2, hrec⟩ := queryLoop_skipOnly q0 qp hq0lim hqplim hmaf
              rest 0 M2 nk2 sr2 lr2 le_rfl hrec0
            refine ⟨k :: nk, s2, l2, ?_⟩
            simp only [queryLoop]
            rw [if_neg (List.not_mem_nil k), hmaf k v, hm]
            rw [if_neg (by omega : ¬ (0:Int) > 0)]
            rw [if_neg (by simp [hqplim])]
            simp only [hqplim]
            norm_num
            rw [hrec]
            simp [← h1]

end Badgerhold

namespace Badgerhold

/-- C2 counterexample: with an OR-branch the limit does not cap the
result — the branch runs with limit 0 — so a query with Limit 2 returns 3
records and the skip/limit slice law fails. -/
theorem C2_or_limit_counterexample :
    findQuery ⟨[(Val.vint 1, [("F", Val.vint 1)]), (Val.vint 2, [("F", Val.vint 2)]),
        (Val.vint 3, [("F", Val.vint 3)])], [], []⟩
      (Query.mk "" [("F", [⟨Op.eq, Val.vint 1, []⟩])]
        (.cons (Query.mk "" [("F", [⟨Op.ge, Val.vint 2, []⟩])] .nil 0 0 [] false) .nil)
        2 0 [] false) =
      .ok [(Val.vint 1, [("F", Val.vint 1)]), (Val.vint 2, [("F", Val.vint 2)]),
        (Val.vint 3, [("F", Val.vint 3)])] ∧
    findQuery ⟨[(Val.vint 1, [("F", Val.vint 1)]), (Val.vint 2, [("F", Val.vint 2)]),
        (Val.vint 3, [("F", Val.vint 3)])], [], []⟩
      (Query.mk "" [("F", [⟨Op.eq, Val.vint 1, []⟩])]
        (.cons (Query.mk "" [("F", [⟨Op.ge, Val.vint 2, []⟩])] .nil 0 0 [] false) .nil)
        0 0 [] false) =
      .ok [(Val.vint 1, [("F", Val.vint 1)]), (Val.vint 2, [("F", Val.vint 2)]),
        (Val.vint 3, [("F", Val.vint 3)])] ∧
    ¬ ([(Val.vint 1, [("F", Val.vint 1)]), (Val.vint 2, [("F", Val.vint 2)]),
        (Val.vint 3, [("F", Val.vint 3)])] : List (Val × Rec)) =
      sliceRange [(Val.vint 1, [("F", Val.vint 1)]), (Val.vint 2, [("F", Val.vint 2)]),
        (Val.vint 3, [("F", Val.vint 3)])]
        (getSkipAndLimitRange (Query.mk "" [("F", [⟨Op.eq, Val.vint 1, []⟩])]
          (.cons (Query.mk "" [("F", [⟨Op.ge, Val.vint 2, []⟩])] .nil 0 0 [] false) .nil)
          2 0 [] false) 3) := by
  refine ⟨rfl, rfl, ?_⟩
  decide

/-- C2 (amended): for an OR-free, sort-free full-scan query the result
with Skip s and Limit l is exactly the base result with the first s
records dropped and the remainder capped at l records. -/
theorem C2_skip_limit_slice (st : Store) (fc : List (String × List Criterion))
    (s limv : Int) (rev : Bool) (hs : 0 ≤ s) (hl : 0 < limv)
    (M : List (Val × Rec))
    (hbase : findQuery st (Query.mk "" fc .nil 0 0 [] rev) = .ok M) :
    findQuery st (Query.mk "" fc .nil limv s [] rev) =
      .ok ((M.drop s.toNat).take limv.toNat) ∧
    findQuery st (Query.mk "" fc .nil 0 s [] rev) = .ok (M.drop s.toNat) ∧
    ((M.length : Int) ≤ s → (M.drop s.toNat).take limv.toNat = [] ∧ M.drop s.toNat = []) ∧
    (((M.drop s.toNat).take limv.toNat).length : Int) ≤ limv := by
  have hfbi0 : isFindByIndexQuery (Query.mk "" fc .nil 0 0 [] rev) = false := rfl
  have hfbip : isFindByIndexQuery (Query.mk "" fc .nil limv s [] rev) = false := rfl
  have hfbis : isFindByIndexQuery (Query.mk "" fc .nil 0 s [] rev) = false := rfl
  simp only [findQuery, hfbi0, Bool.false_eq_true, if_false, runQuery] at hbase
  rw [show (Query.mk "" fc .nil 0 0 [] rev).size = 0 + 1 from rfl] at hbase
  rw [runQueryF_noOrs 0 st (Query.mk "" fc .nil 0 0 [] rev) [] _ rfl rfl rfl] at hbase
  have hzero : ((Query.mk "" fc .nil 0 0 [] rev).limit -
      (List.length ([] : List Val) : Int)) = 0 := rfl
  rw [hzero] at hbase
  have hskip0 : (Query.mk "" fc .nil 0 0 [] rev).skip = 0 := rfl
  rw [hskip0] at hbase
  cases hq0 : queryLoop (Query.mk "" fc .nil 0 0 [] rev) [] st.records 0 0 with
  | error e => rw [hq0] at hbase; cases hbase
  | ok t =>
    obtain ⟨M0, nk0, s0, l0⟩ := t
    rw [hq0] at hbase
    have hM0 : M0 = M := by
      simpa using hbase
    rw [hM0] at hq0
    have hmafp : ∀ k v, matchesAllFields (Query.mk "" fc .nil limv s [] rev) k v =
        matchesAllFields (Query.mk "" fc .nil 0 0 [] rev) k v :=
      fun k v => maf_congr _ _ k v rfl rfl rfl
    have hmafs : ∀ k v, matchesAllFields (Query.mk "" fc .nil 0 s [] rev) k v =
        matchesAllFields (Query.mk "" fc .nil 0 0 [] rev) k v :=
      fun k v => maf_congr _ _ k v rfl rfl rfl
    obtain ⟨nk, s2, l2, hp⟩ := queryLoop_page (Query.mk "" fc .nil 0 0 [] rev)
      (Query.mk "" fc .nil limv s [] rev) rfl (by simpa [Query.limit] using (by omega : ¬ limv = 0))
      hmafp st.records s limv M nk0 s0 l0 hs hl hq0
    obtain ⟨nks, s2s, l2s, hsk⟩ := queryLoop_skipOnly (Query.mk "" fc .nil 0 0 [] rev)
      (Query.mk "" fc .nil 0 s [] rev) rfl rfl
      hmafs st.records s M nk0 s0 l0 hs hq0
    refine ⟨?_, ?_, ?_, ?_⟩
    · simp only [findQuery, hfbip, Bool.false_eq_true, if_false, runQuery]
      rw [show (Query.mk "" fc .nil limv s [] rev).size = 0 + 1 from rfl]
      rw [runQueryF_noOrs 0 st (Query.mk "" fc .nil limv s [] rev) [] _ rfl rfl rfl]
      have harg : ((Query.mk "" fc .nil limv s [] rev).limit -
          (List.length ([] : List Val) : Int)) = limv := by
        simp [Query.limit]
      rw [harg]
      have hargs : (Query.mk "" fc .nil limv s [] rev).skip = s := rfl
      rw [hargs, hp]
    · simp only [findQuery, hfbis, Bool.false_eq_true, if_false, runQuery]
      rw [show (Query.mk "" fc .nil 0 s [] rev).size = 0 + 1 from rfl]
      rw [runQueryF_noOrs 0 st (Query.mk "" fc .nil 0 s [] rev) [] _ rfl rfl rfl]
      have harg : ((Query.mk "" fc .nil 0 s [] rev).limit -
          (List.length ([] : List Val) : Int)) = 0 := rfl
      rw [harg]
      have hargs : (Query.mk "" fc .nil 0 s [] rev).skip = s := rfl
      rw [hargs, hsk]
    · intro hlen
      have hdrop : M.drop s.toNat = [] := by
        apply List.drop_eq_nil_of_le
        omega
      exact ⟨by rw [hdrop]; simp, hdrop⟩
    · have := List.length_take_le limv.toNat (M.drop s.toNat)
      omega

end Badgerhold

namespace Badgerhold

/-- C2 witness: skip 1, limit 1 over three records. -/
theorem C2_skip_limit_slice_witness :
    findQuery ⟨[(Val.vint 1, [("F", Val.vint 1)]), (Val.vint 2, [("F", Val.vint 2)]),
        (Val.vint 3, [("F", Val.vint 3)])], [], []⟩
      (Query.mk "" [("F", [⟨Op.ge, Val.vint 1, []⟩])] .nil 1 1 [] false) =
      .ok ((([(Val.vint 1, [("F", Val.vint 1)]), (Val.vint 2, [("F", Val.vint 2)]),
        (Val.vint 3, [("F", Val.vint 3)])] : List (Val × Rec)).drop
          (1 : Int).toNat).take (1 : Int).toNat) ∧
    ((([(Val.vint 1, [("F", Val.vint 1)]), (Val.vint 2, [("F", Val.vint 2)]),
        (Val.vint 3, [("F", Val.vint 3)])] : List (Val × Rec)).drop
          (1 : Int).toNat).take (1 : Int).toNat) =
      [(Val.vint 2, [("F", Val.vint 2)])] := by
  refine ⟨?_, by decide⟩
  exact (C2_skip_limit_slice ⟨[(Val.vint 1, [("F", Val.vint 1)]),
      (Val.vint 2, [("F", Val.vint 2)]), (Val.vint 3, [("F", Val.vint 3)])], [], []⟩
    [("F", [⟨Op.ge, Val.vint 1, []⟩])] 1 1 false (by decide) (by decide)
    [(Val.vint 1, [("F", Val.vint 1)]), (Val.vint 2, [("F", Val.vint 2)]),
      (Val.vint 3, [("F", Val.vint 3)])] rfl).1

/-- C3 witness: a one-record store with one OR-branch. -/
theorem C3_or_dedup_single_branch_witness :
    (([(Val.vint 1, [("F", Val.vint 1)])] : List (Val × Rec)).map Prod.fst).Nodup := by
  exact C3_or_dedup_single_branch ⟨[(Val.vint 1, [("F", Val.vint 1)])], [], []⟩
    [("F", [⟨Op.eq, Val.vint 99, []⟩])] [("F", [⟨Op.eq, Val.vint 1, []⟩])]
    0 0 0 0 false false (by decide) [(Val.vint 1, [("F", Val.vint 1)])] rfl

end Badgerhold

namespace Badgerhold

/-! C1 lemma stack: criterion characterizations -/

theorem compare_self (v : Val) : compare v v = .ok 0 := by
  cases v with
  | vint a => simp [compare]
  | vstr a => simp [compare]

theorem compare_eq_zero_iff (a b : Val) : compare a b = .ok 0 ↔ a = b := by
  constructor
  · intro h
    cases a with
    | vint x =>
      cases b with
      | vint y =>
        simp only [compare] at h
        by_cases hxy : x < y
        · simp [hxy] at h
        · by_cases hxe : x = y
          · simp [hxe]
          · simp [hxy, hxe] at h
      | vstr y => simp [compare] at h
    | vstr x =>
      cases b with
      | vint y => simp [compare] at h
      | vstr y =>
        simp only [compare] at h
        by_cases hxy : x < y
        · simp [hxy] at h
        · by_cases hxe : x = y
          · simp [hxe]
          · simp [hxy, hxe] at h
  · rintro rfl
    exact compare_self a

theorem cmp_eq_zero_iff (c : Criterion) (a b : Val) : c.cmp a b = .ok 0 ↔ a = b := by
  unfold Criterion.cmp
  cases hc : compare a b with
  | ok r =>
    constructor
    · intro h
      injection h with h
      rw [← compare_eq_zero_iff a b, hc, h]
    · rintro rfl
      rw [compare_self] at hc
      injection hc with hc
      simp [hc]
  | error e =>
    constructor
    · intro h
      by_cases hop : c.operator = .eq ∨ c.operator = .ne
      · simp only [if_pos hop] at h
        injection h with h
        by_cases hab : a = b
        · exact hab
        · simp [hab] at h
      · simp [if_neg hop] at h
    · rintro rfl
      rw [compare_self] at hc
      cases hc

theorem testEq_true_iff (c : Criterion) (v : Val) (hop : c.operator = .eq) :
    c.test v = .ok true ↔ v = c.value := by
  unfold Criterion.test
  rw [hop]
  simp only []
  cases hc : c.cmp v c.value with
  | error e =>
    constructor
    · intro h; cases h
    · intro h
      rw [← cmp_eq_zero_iff c v c.value] at h
      rw [h] at hc
      cases hc
  | ok r =>
    simp only [hop]
    constructor
    · intro h
      have hr : r = 0 := by simpa using h
      rw [← cmp_eq_zero_iff c v c.value, hc, hr]
    · intro h
      rw [← cmp_eq_zero_iff c v c.value, hc] at h
      injection h with h
      simp [h]

theorem testIn_true_mem (c : Criterion) (v : Val) :
    ∀ vs, c.testIn v vs = .ok true → v ∈ vs
  | [], h => by cases h
  | w :: ws, h => by
    simp only [Criterion.testIn] at h
    cases hc : c.cmp v w with
    | error e => rw [hc] at h; cases h
    | ok r =>
      simp only [hc] at h
      by_cases hr : r = 0
      · rw [hr] at hc
        have : v = w := (cmp_eq_zero_iff c v w).mp hc
        simp [this]
      · rw [if_neg hr] at h
        exact List.mem_cons_of_mem w (testIn_true_mem c v ws h)

theorem testIn_false_not_mem (c : Criterion) (v : Val) :
    ∀ vs, c.testIn v vs = .ok false → v ∉ vs
  | [], _ => List.not_mem_nil v
  | w :: ws, h => by
    simp only [Criterion.testIn] at h
    cases hc : c.cmp v w with
    | error e => rw [hc] at h; cases h
    | ok r =>
      simp only [hc] at h
      by_cases hr : r = 0
      · rw [if_pos hr] at h; cases h
      · rw [if_neg hr] at h
        intro hmem
        rcases List.mem_cons.mp hmem with heq | hmem2
        · rw [heq] at hc
          rw [(cmp_eq_zero_iff c w w).mpr rfl] at hc
          injection hc with hc
          exact hr hc.symm
        · exact testIn_false_not_mem c v ws h hmem2

theorem test_true_of_selected (c : Criterion) (v : Val)
    (hop : c.operator = .eq ∨ c.operator = .inOp)
    (hsel : v ∈ critValues c) (hok : ∃ b, c.test v = .ok b) :
    c.test v = .ok true := by
  rcases hop with hop | hop
  · rw [testEq_true_iff c v hop]
    simpa [critValues, hop] using hsel
  · obtain ⟨b, hb⟩ := hok
    cases b with
    | true => exact hb
    | false =>
      exfalso
      have hb2 : c.testIn v c.values = .ok false := by
        unfold Criterion.test at hb
        rw [hop] at hb
        exact hb
      have := testIn_false_not_mem c v c.values hb2
      apply this
      simpa [critValues, hop] using hsel

theorem test_selected_of_true (c : Criterion) (v : Val)
    (hop : c.operator = .eq ∨ c.operator = .inOp)
    (ht : c.test v = .ok true) : v ∈ critValues c := by
  rcases hop with hop | hop
  · have := (testEq_true_iff c v hop).mp ht
    simp [critValues, hop, this]
  · have ht2 : c.testIn v c.values = .ok true := by
      unfold Criterion.test at ht
      rw [hop] at ht
      exact ht
    have := testIn_true_mem c v c.values ht2
    simpa [critValues, hop] using this

end Badgerhold

namespace Badgerhold

theorem mac_single (c : Criterion) (v : Val) :
    matchesAllCriteria [c] v = c.test v := by
  unfold matchesAllCriteria
  cases h : c.test v with
  | error e => rfl
  | ok b => cases b <;> rfl

theorem loop_full_true (q0 : Query) (hq0 : q0.index = "") (key : Val) (value : Rec) :
    ∀ entries, matchesAllFields.loop q0 key value entries = .ok true →
    ∀ e ∈ entries, e.1 ≠ "" →
      ∃ fv, recLookup value e.1 = some fv ∧ matchesAllCriteria e.2 fv = .ok true
  | [], _, e, he, _ => absurd he (List.not_mem_nil e)
  | (g, cs) :: rest, h, e, he, hne => by
    simp only [matchesAllFields.loop, hq0, Key] at h
    by_cases hg : g = ""
    · rw [if_pos hg] at h
      rcases List.mem_cons.mp he with heq | hmem
      · exfalso
        apply hne
        rw [heq]
        exact hg
      · exact loop_full_true q0 hq0 key value rest h e hmem hne
    · simp only [if_neg hg] at h
      cases hl : recLookup value g with
      | none => simp only [hl] at h; cases h
      | some fv =>
        simp only [hl] at h
        cases hm : matchesAllCriteria cs fv with
        | error er => simp only [hm] at h; cases h
        | ok b =>
          simp only [hm] at h
          cases b with
          | false => cases h
          | true =>
            rcases List.mem_cons.mp he with heq | hmem
            · rw [heq]
              exact ⟨fv, hl, hm⟩
            · exact loop_full_true q0 hq0 key value rest h e hmem hne

theorem loop_skip_eq (f : String) (hf : ¬ f = "") (q q0 : Query)
    (hq : q.index = f) (hq0 : q0.index = "") (c : Criterion) (key : Val) (value : Rec)
    (fv : Val) (hfv : recLookup value f = some fv)
    (hsel : fv ∈ critValues c)
    (hop : c.operator = Op.eq ∨ c.operator = Op.inOp) :
    ∀ entries, (∀ e ∈ entries, ¬ e.1 = "") → (∀ e ∈ entries, e.1 = f → e.2 = [c]) →
    (∃ b, matchesAllFields.loop q0 key value entries = .ok b) →
    matchesAllFields.loop q key value entries = matchesAllFields.loop q0 key value entries
  | [], _, _, _ => rfl
  | (g, cs) :: rest, hkey, hfc, hb => by
    obtain ⟨b, hb⟩ := hb
    by_cases hg : g = f
    · subst hg
      have hcs : cs = [c] := hfc (g, cs) (List.mem_cons_self _ _) rfl
      subst hcs
      have hstep : matchesAllFields.loop q key value ((g, [c]) :: rest) =
          matchesAllFields.loop q key value rest := by
        simp [matchesAllFields.loop, hq]
      have htest_ok : ∃ tb, c.test fv = .ok tb := by
        have hb2 := hb
        simp only [matchesAllFields.loop, hq0, Key, if_neg hf, hfv, mac_single] at hb2
        cases ht : c.test fv with
        | error er =>
          simp only [ht] at hb2
          exact Except.noConfusion hb2
        | ok tb => exact ⟨tb, rfl⟩
      have htest : c.test fv = .ok true := test_true_of_selected c fv hop hsel htest_ok
      have h0step : matchesAllFields.loop q0 key value ((g, [c]) :: rest) =
          matchesAllFields.loop q0 key value rest := by
        simp only [matchesAllFields.loop, hq0, Key, if_neg hf, hfv, mac_single, htest]
      rw [hstep, h0step]
      apply loop_skip_eq g hf q q0 hq hq0 c key value fv hfv hsel hop rest
        (fun e he => hkey e (List.mem_cons_of_mem _ he))
        (fun e he => hfc e (List.mem_cons_of_mem _ he))
      rw [← h0step]
      exact ⟨b, hb⟩
    · have hgne : ¬ g = "" := hkey (g, cs) (List.mem_cons_self _ _)
      simp only [matchesAllFields.loop, hq, hq0, Key, if_neg hg, if_neg hgne] at hb ⊢
      cases hl : recLookup value g with
      | none => simp only [hl]
      | some v2 =>
        simp only [hl] at hb ⊢
        cases hm : matchesAllCriteria cs v2 with
        | error er => simp only [hm]
        | ok mb =>
          simp only [hm] at hb ⊢
          cases mb with
          | false => rfl
          | true =>
            exact loop_skip_eq f hf q q0 hq hq0 c key value fv hfv hsel hop rest
              (fun e he => hkey e (List.mem_cons_of_mem _ he))
              (fun e he => hfc e (List.mem_cons_of_mem _ he))
              ⟨b, hb⟩

end Badgerhold

namespace Badgerhold

theorem lookupCriteria_uniform (f : String) (c : Criterion) :
    ∀ fc : List (String × List Criterion), (f, [c]) ∈ fc →
      (∀ e ∈ fc, e.1 = f → e.2 = [c]) →
      lookupCriteria fc f = some [c]
  | [], hmem, _ => absurd hmem (List.not_mem_nil _)
  | (g, cs) :: rest, hmem, hu => by
    by_cases hg : g = f
    · have : cs = [c] := hu (g, cs) (List.mem_cons_self _ _) hg
      simp [lookupCriteria, hg, this]
    · have hmem2 : (f, [c]) ∈ rest := by
        rcases List.mem_cons.mp hmem with he | hm
        · exact absurd (congrArg Prod.fst he).symm hg
        · exact hm
      simp only [lookupCriteria, if_neg hg]
      exact lookupCriteria_uniform f c rest hmem2
        (fun e he hf => hu e (List.mem_cons_of_mem _ he) hf)

theorem matches_noOrs (q : Query) (hors : q.ors = .nil) (k : Val) (r : Rec) :
    Query.matches q k r = matchesAllFields q k r := by
  cases q with
  | mk i fc ors l s srt rev =>
    simp only [Query.ors] at hors
    subst hors
    simp only [Query.matches]
    cases h : matchesAllFields (Query.mk i fc .nil l s srt rev) k r with
    | error e => rfl
    | ok b => cases b <;> simp [QueryList.matchesOrs]

theorem fetchIndexValues_mem (st : Store) (q : Query) :
    ∀ (vs : List Val) (k : Val),
      k ∈ fetchIndexValues st q vs ↔ ∃ v ∈ vs, k ∈ entryKeys st q.index v
  | [], k => by simp [fetchIndexValues]
  | v :: vs, k => by
    simp only [fetchIndexValues, List.mem_append, fetchIndexValues_mem st q vs k,
      List.mem_cons]
    constructor
    · rintro (h | ⟨w, hw, hk⟩)
      · exact ⟨v, Or.inl rfl, h⟩
      · exact ⟨w, Or.inr hw, hk⟩
    · rintro ⟨w, hw | hw, hk⟩
      · exact Or.inl (hw ▸ hk)
      · exact Or.inr ⟨w, hw, hk⟩

theorem slice_noPage (q : Query) (hs : q.skip = 0) (hl : q.limit = 0)
    (l : List (Val × Rec)) :
    sliceRange l (getSkipAndLimitRange q l.length) = l := by
  have h1 : ¬ ((l.length : Int) < 0) := not_lt.mpr (Int.natCast_nonneg _)
  simp [getSkipAndLimitRange, sliceRange, hs, hl, h1]

theorem isEmpty_false_of_index (q : Query) (h : ¬ q.index = "") :
    q.IsEmpty = false := by
  simp [Query.IsEmpty, h]

theorem isEmpty_false_of_fc (q : Query) (h : q.fieldCriteria ≠ []) :
    q.IsEmpty = false := by
  cases hfc : q.fieldCriteria with
  | nil => exact absurd hfc h
  | cons e rest => simp [Query.IsEmpty, hfc]

theorem maf_not_empty (q : Query) (h : q.IsEmpty = false) (key : Val) (value : Rec) :
    matchesAllFields q key value = matchesAllFields.loop q key value q.fieldCriteria := by
  simp [matchesAllFields, h]

end Badgerhold

namespace Badgerhold

theorem queryLoop_scan (q : Query) (hlim : q.limit = 0) :
    ∀ rows : List (Val × Rec),
      (∀ p ∈ rows, ∃ b, matchesAllFields q p.1 p.2 = .ok b) →
      ∃ em nk, queryLoop q [] rows 0 0 = .ok (em, nk, 0, 0) ∧
        ∀ p : Val × Rec, p ∈ em ↔ p ∈ rows ∧ matchesAllFields q p.1 p.2 = .ok true
  | [], _ => ⟨[], [], rfl, by simp⟩
  | (k, v) :: rows, hok => by
    obtain ⟨em, nk, hql, hm⟩ := queryLoop_scan q hlim rows
      (fun p hp => hok p (List.mem_cons_of_mem _ hp))
    obtain ⟨b, hb⟩ := hok (k, v) (List.mem_cons_self _ _)
    have hkr : (k ∈ ([] : List Val)) = False := by simp
    cases b with
    | false =>
      refine ⟨em, nk, ?_, ?_⟩
      · simp only [queryLoop, hkr, if_false, hb, hql]
      · intro p
        rw [hm p]
        constructor
        · rintro ⟨hp, ht⟩
          exact ⟨List.mem_cons_of_mem _ hp, ht⟩
        · rintro ⟨hp, ht⟩
          rcases List.mem_cons.mp hp with he | hmm
          · exfalso
            rw [he] at ht
            rw [hb] at ht
            exact Bool.noConfusion (Except.ok.inj ht)
          · exact ⟨hmm, ht⟩
    | true =>
      have hskip : ¬ ((0 : Int) > 0) := by decide
      have hlim2 : ¬ (q.limit ≠ 0 ∧ (if q.limit ≠ 0 then (0 : Int) - 1 else 0) = 0) := by
        rw [hlim]; simp
      refine ⟨(k, v) :: em, k :: nk, ?_, ?_⟩
      · simp only [queryLoop, hkr, if_false, hb, if_neg hskip, hlim, ne_eq,
          not_true_eq_false, if_neg hlim2, ite_self]
        simp only [if_neg (by simp : ¬ ((0 : Int) ≠ 0)), hql]
        simp
      · intro p
        simp only [List.mem_cons, hm p]
        constructor
        · rintro (he | ⟨hp, ht⟩)
          · rw [he]
            exact ⟨Or.inl rfl, hb⟩
          · exact ⟨Or.inr hp, ht⟩
        · rintro ⟨he | hp, ht⟩
          · exact Or.inl he
          · exact Or.inr ⟨hp, ht⟩

theorem findByIndexLoop_mem (st : Store) (q : Query)
    (hnd : (st.records.map Prod.fst).Nodup) :
    ∀ ks : List Val,
      (∀ k ∈ ks, ∃ r, storeGet st k = some r ∧ ∃ b, matchesAllFields q k r = .ok b) →
      ∃ kept, findByIndexLoop st q ks = .ok kept ∧
        ∀ p : Val × Rec, p ∈ kept ↔
          p.1 ∈ ks ∧ storeGet st p.1 = some p.2 ∧ matchesAllFields q p.1 p.2 = .ok true
  | [], _ => ⟨[], rfl, by simp⟩
  | k :: ks, hok => by
    obtain ⟨kept, hfb, hm⟩ := findByIndexLoop_mem st q hnd ks
      (fun k2 hk2 => hok k2 (List.mem_cons_of_mem _ hk2))
    obtain ⟨r, hr, b, hb⟩ := hok k (List.mem_cons_self _ _)
    cases b with
    | false =>
      refine ⟨kept, ?_, ?_⟩
      · simp only [findByIndexLoop, hr, hb, hfb]
      · intro p
        rw [hm p]
        constructor
        · rintro ⟨hp, hsg, ht⟩
          exact ⟨List.mem_cons_of_mem _ hp, hsg, ht⟩
        · rintro ⟨hp, hsg, ht⟩
          rcases List.mem_cons.mp hp with he | hmm
          · exfalso
            rw [he] at hsg
            rw [hr] at hsg
            have : p.2 = r := (Option.some.inj hsg).symm
            rw [he, this, hb] at ht
            exact Bool.noConfusion (Except.ok.inj ht)
          · exact ⟨hmm, hsg, ht⟩
    | true =>
      refine ⟨(k, r) :: kept, ?_, ?_⟩
      · simp only [findByIndexLoop, hr, hb, hfb]
      · intro p
        simp only [List.mem_cons, hm p]
        constructor
        · rintro (he | ⟨hp, hsg, ht⟩)
          · rw [he]
            exact ⟨Or.inl rfl, hr, hb⟩
          · exact ⟨Or.inr hp, hsg, ht⟩
        · rintro ⟨he | hp, hsg, ht⟩
          · left
            have : p.2 = r := by
              rw [he, hr] at hsg
              exact (Option.some.inj hsg).symm
            calc p = (p.1, p.2) := rfl
              _ = (k, r) := by rw [he, this]
          · exact Or.inr ⟨hp, hsg, ht⟩

end Badgerhold

namespace Badgerhold

theorem maf_index_eq (f : String) (fc : List (String × List Criterion))
    (c : Criterion) (rev : Bool) (hf : ¬ f = "")
    (hmem : (f, [c]) ∈ fc) (hfc1 : ∀ e ∈ fc, e.1 = f → e.2 = [c])
    (hkeyc : ∀ e ∈ fc, ¬ e.1 = "")
    (hop : c.operator = Op.eq ∨ c.operator = Op.inOp)
    (key : Val) (value : Rec) (fv : Val)
    (hfv : recLookup value f = some fv) (hsel : fv ∈ critValues c)
    (hok : ∃ b, matchesAllFields (Query.mk "" fc .nil 0 0 [] rev) key value = .ok b) :
    matchesAllFields (Query.mk f fc .nil 0 0 [] rev) key value
      = matchesAllFields (Query.mk "" fc .nil 0 0 [] rev) key value := by
  have hfcne : fc ≠ [] := by
    intro h
    rw [h] at hmem
    exact List.not_mem_nil _ hmem
  have he1 : (Query.mk f fc .nil 0 0 [] rev).IsEmpty = false :=
    isEmpty_false_of_index _ hf
  have he0 : (Query.mk "" fc .nil 0 0 [] rev).IsEmpty = false :=
    isEmpty_false_of_fc _ hfcne
  rw [maf_not_empty _ he1 key value, maf_not_empty _ he0 key value]
  apply loop_skip_eq f hf (Query.mk f fc .nil 0 0 [] rev)
    (Query.mk "" fc .nil 0 0 [] rev) rfl rfl c key value fv hfv hsel hop fc hkeyc hfc1
  obtain ⟨b, hb⟩ := hok
  rw [maf_not_empty _ he0 key value] at hb
  exact ⟨b, hb⟩

theorem maf_true_select (f : String) (fc : List (String × List Criterion))
    (c : Criterion) (rev : Bool)
    (hmem : (f, [c]) ∈ fc)
    (hkeyc : ∀ e ∈ fc, ¬ e.1 = "")
    (hop : c.operator = Op.eq ∨ c.operator = Op.inOp)
    (key : Val) (value : Rec)
    (ht : matchesAllFields (Query.mk "" fc .nil 0 0 [] rev) key value = .ok true) :
    ∃ fv, recLookup value f = some fv ∧ fv ∈ critValues c := by
  have hfcne : fc ≠ [] := by
    intro h
    rw [h] at hmem
    exact List.not_mem_nil _ hmem
  have he0 : (Query.mk "" fc .nil 0 0 [] rev).IsEmpty = false :=
    isEmpty_false_of_fc _ hfcne
  rw [maf_not_empty _ he0 key value] at ht
  obtain ⟨fv, hfv, hmac⟩ := loop_full_true (Query.mk "" fc .nil 0 0 [] rev) rfl
    key value fc ht (f, [c]) hmem (hkeyc (f, [c]) hmem)
  rw [mac_single] at hmac
  exact ⟨fv, hfv, test_selected_of_true c fv hop hmac⟩

end Badgerhold

namespace Badgerhold

theorem isFindByIndexQuery_true (f : String) (fc : List (String × List Criterion))
    (c : Criterion) (rev : Bool) (hf : ¬ f = "") (hfcne : fc ≠ [])
    (hlc : lookupCriteria fc f = some [c])
    (hop : c.operator = Op.eq ∨ c.operator = Op.inOp) :
    isFindByIndexQuery (Query.mk f fc .nil 0 0 [] rev) = true := by
  have h1 : (f == "") = false := by
    simpa using hf
  have h2 : fc.isEmpty = false := by
    cases fc with
    | nil => exact absurd rfl hfcne
    | cons e rest => rfl
  simp only [isFindByIndexQuery, Query.index, Query.fieldCriteria, Query.ors, hlc,
    h1, h2, Option.getD_some, QueryList.isEmpty]
  rcases hop with h | h <;> simp [h]

theorem isFindByIndexQuery_noIndex (fc : List (String × List Criterion))
    (ors : QueryList) (l s : Int) (srt : List String) (rev : Bool) :
    isFindByIndexQuery (Query.mk "" fc ors l s srt rev) = false := by
  simp [isFindByIndexQuery, Query.index]

theorem findByIndexQuery_eq (st : Store) (f : String)
    (fc : List (String × List Criterion)) (c : Criterion) (rev : Bool)
    (hf : ¬ f = "") (hdecl : f ∈ st.declared)
    (hlc : lookupCriteria fc f = some [c]) :
    findByIndexQuery st (Query.mk f fc .nil 0 0 [] rev) =
      match findByIndexLoop st (Query.mk f fc .nil 0 0 [] rev)
          (fetchIndexValues st (Query.mk f fc .nil 0 0 [] rev) (critValues c)) with
      | .error e => .error e
      | .ok kept => .ok kept := by
  simp only [findByIndexQuery, Query.fieldCriteria, Query.index, hlc, Option.getD_some]
  have hval : validateIndex st (Query.mk f fc .nil 0 0 [] rev) = .ok () := by
    simp [validateIndex, Query.index, hf, hdecl]
  simp only [hval, critValues]
  cases hfb : findByIndexLoop st (Query.mk f fc .nil 0 0 [] rev)
      (fetchIndexValues st (Query.mk f fc .nil 0 0 [] rev)
        (if c.operator == Op.inOp then c.values else [c.value])) with
  | error e => rfl
  | ok kept =>
    simp only [Query.sort, List.isEmpty_nil, if_true]
    rw [slice_noPage (Query.mk f fc .nil 0 0 [] rev) rfl rfl kept]

end Badgerhold

namespace Badgerhold

/-- C1: for an equality/membership query on an indexed field
(`isFindByIndexQuery` holds) with no sort, skip, limit or OR-branches,
both access paths succeed and return exactly the stored records matched
by the query evaluator: the direct index-lookup path (`findByIndexQuery`)
and the full-scan path (`runQuery` with the match evaluator) agree on
every dataset whose index is consistent, whose primary keys are unique and
on which the evaluator is total. -/
theorem C1_find_index_path_equals_scan
    (st : Store) (f : String) (fc : List (String × List Criterion))
    (c : Criterion) (rev : Bool)
    (hf : ¬ f = "")
    (hmem : (f, [c]) ∈ fc)
    (hfc1 : ∀ e ∈ fc, e.1 = f → e.2 = [c])
    (hkeyc : ∀ e ∈ fc, ¬ e.1 = "")
    (hop : c.operator = Op.eq ∨ c.operator = Op.inOp)
    (hdecl : f ∈ st.declared)
    (hcons : indexConsistent st f)
    (hnodup : (st.records.map Prod.fst).Nodup)
    (hok : ∀ p ∈ st.records,
      ∃ b, Query.matches (Query.mk "" fc .nil 0 0 [] rev) p.1 p.2 = .ok b) :
    isFindByIndexQuery (Query.mk f fc .nil 0 0 [] rev) = true ∧
    isFindByIndexQuery (Query.mk "" fc .nil 0 0 [] rev) = false ∧
    ∃ l0 l1,
      findQuery st (Query.mk "" fc .nil 0 0 [] rev) = .ok l0 ∧
      findQuery st (Query.mk f fc .nil 0 0 [] rev) = .ok l1 ∧
      (∀ p : Val × Rec, p ∈ l0 ↔ p ∈ st.records ∧
        Query.matches (Query.mk "" fc .nil 0 0 [] rev) p.1 p.2 = .ok true) ∧
      (∀ p : Val × Rec, p ∈ l1 ↔ p ∈ st.records ∧
        Query.matches (Query.mk "" fc .nil 0 0 [] rev) p.1 p.2 = .ok true) := by
  have hfcne : fc ≠ [] := by
    intro h
    rw [h] at hmem
    exact List.not_mem_nil _ hmem
  have hlc : lookupCriteria fc f = some [c] := lookupCriteria_uniform f c fc hmem hfc1
  have hIFB : isFindByIndexQuery (Query.mk f fc .nil 0 0 [] rev) = true :=
    isFindByIndexQuery_true f fc c rev hf hfcne hlc hop
  have hIFB0 : isFindByIndexQuery (Query.mk "" fc .nil 0 0 [] rev) = false :=
    isFindByIndexQuery_noIndex fc .nil 0 0 [] rev
  have hokm : ∀ p ∈ st.records,
      ∃ b, matchesAllFields (Query.mk "" fc .nil 0 0 [] rev) p.1 p.2 = .ok b := by
    intro p hp
    obtain ⟨b, hb⟩ := hok p hp
    rw [matches_noOrs (Query.mk "" fc .nil 0 0 [] rev) rfl] at hb
    exact ⟨b, hb⟩
  -- the full-scan path
  obtain ⟨em, nk, hql, hmem0⟩ :=
    queryLoop_scan (Query.mk "" fc .nil 0 0 [] rev) rfl st.records hokm
  have hrun := runQueryF_noOrs 0 st (Query.mk "" fc .nil 0 0 [] rev) [] 0 rfl rfl rfl
  have hinit : (Query.mk "" fc .nil 0 0 [] rev).limit
      - (([] : List Val).length : Int) = 0 := by
    simp [Query.limit]
  rw [hinit, hql] at hrun
  have hfq0 : findQuery st (Query.mk "" fc .nil 0 0 [] rev) = .ok em := by
    simp only [findQuery, hIFB0, Bool.false_eq_true, if_false]
    show runQueryF (Query.mk "" fc .nil 0 0 [] rev).size st
      (Query.mk "" fc .nil 0 0 [] rev) [] (Query.mk "" fc .nil 0 0 [] rev).skip = .ok em
    exact hrun
  -- the index path
  have hkeysOK : ∀ k ∈ fetchIndexValues st (Query.mk f fc .nil 0 0 [] rev) (critValues c),
      ∃ r, storeGet st k = some r ∧
        ∃ b, matchesAllFields (Query.mk f fc .nil 0 0 [] rev) k r = .ok b := by
    intro k hk
    obtain ⟨v, hv, hkv⟩ :=
      (fetchIndexValues_mem st (Query.mk f fc .nil 0 0 [] rev) (critValues c) k).mp hk
    obtain ⟨r, hrmem, hrv⟩ := (hcons v k).mp hkv
    have hsg := mem_storeGet st k r hnodup hrmem
    have hokr := hokm (k, r) hrmem
    have heq := maf_index_eq f fc c rev hf hmem hfc1 hkeyc hop k r v hrv hv hokr
    obtain ⟨b, hb⟩ := hokr
    refine ⟨r, hsg, b, ?_⟩
    rw [heq]
    exact hb
  obtain ⟨kept, hfbl, hkmem⟩ := findByIndexLoop_mem st (Query.mk f fc .nil 0 0 [] rev)
    hnodup _ hkeysOK
  have hfq1 : findQuery st (Query.mk f fc .nil 0 0 [] rev) = .ok kept := by
    simp only [findQuery, hIFB, if_true]
    rw [findByIndexQuery_eq st f fc c rev hf hdecl hlc, hfbl]
  refine ⟨hIFB, hIFB0, em, kept, hfq0, hfq1, ?_, ?_⟩
  · intro p
    rw [hmem0 p, matches_noOrs (Query.mk "" fc .nil 0 0 [] rev) rfl]
  · intro p
    rw [hkmem p, matches_noOrs (Query.mk "" fc .nil 0 0 [] rev) rfl]
    constructor
    · rintro ⟨hkL, hsg, hmaf⟩
      obtain ⟨v, hv, hkv⟩ :=
        (fetchIndexValues_mem st (Query.mk f fc .nil 0 0 [] rev) (critValues c) p.1).mp hkL
      obtain ⟨r, hrmem, hrv⟩ := (hcons v p.1).mp hkv
      have hsg2 := mem_storeGet st p.1 r hnodup hrmem
      have hpr : p.2 = r := by
        rw [hsg2] at hsg
        exact (Option.some.inj hsg).symm
      have hpmem : (p.1, p.2) ∈ st.records := by
        rw [hpr]
        exact hrmem
      have heq := maf_index_eq f fc c rev hf hmem hfc1 hkeyc hop p.1 p.2 v
        (by rw [hpr]; exact hrv) hv (hokm (p.1, p.2) hpmem)
      rw [heq] at hmaf
      exact ⟨hpmem, hmaf⟩
    · rintro ⟨hpmem, ht0⟩
      have hpmem2 : (p.1, p.2) ∈ st.records := hpmem
      obtain ⟨fv, hfv, hsel⟩ := maf_true_select f fc c rev hmem hkeyc hop p.1 p.2 ht0
      have hkv : p.1 ∈ entryKeys st f fv := (hcons fv p.1).mpr ⟨p.2, hpmem2, hfv⟩
      have hkL : p.1 ∈ fetchIndexValues st (Query.mk f fc .nil 0 0 [] rev) (critValues c) :=
        (fetchIndexValues_mem st (Query.mk f fc .nil 0 0 [] rev) (critValues c) p.1).mpr
          ⟨fv, hsel, hkv⟩
      have hsg := mem_storeGet st p.1 p.2 hnodup hpmem2
      have heq := maf_index_eq f fc c rev hf hmem hfc1 hkeyc hop p.1 p.2 fv hfv hsel
        ⟨true, ht0⟩
      refine ⟨hkL, hsg, ?_⟩
      rw [heq]
      exact ht0

end Badgerhold

namespace Badgerhold

/-- C1 witness: a one-record store with a consistent index on field F. -/
theorem C1_find_index_path_equals_scan_witness :
    isFindByIndexQuery (Query.mk "F" [("F", [⟨Op.eq, Val.vint 10, []⟩])]
      .nil 0 0 [] false) = true ∧
    isFindByIndexQuery (Query.mk "" [("F", [⟨Op.eq, Val.vint 10, []⟩])]
      .nil 0 0 [] false) = false ∧
    ∃ l0 l1,
      findQuery ⟨[(Val.vint 1, [("F", Val.vint 10)])],
          [(("F", Val.vint 10), [Val.vint 1])], ["F"]⟩
        (Query.mk "" [("F", [⟨Op.eq, Val.vint 10, []⟩])] .nil 0 0 [] false) = .ok l0 ∧
      findQuery ⟨[(Val.vint 1, [("F", Val.vint 10)])],
          [(("F", Val.vint 10), [Val.vint 1])], ["F"]⟩
        (Query.mk "F" [("F", [⟨Op.eq, Val.vint 10, []⟩])] .nil 0 0 [] false) = .ok l1 ∧
      (∀ p : Val × Rec, p ∈ l0 ↔
        p ∈ (⟨[(Val.vint 1, [("F", Val.vint 10)])],
          [(("F", Val.vint 10), [Val.vint 1])], ["F"]⟩ : Store).records ∧
        Query.matches (Query.mk "" [("F", [⟨Op.eq, Val.vint 10, []⟩])]
          .nil 0 0 [] false) p.1 p.2 = .ok true) ∧
      (∀ p : Val × Rec, p ∈ l1 ↔
        p ∈ (⟨[(Val.vint 1, [("F", Val.vint 10)])],
          [(("F", Val.vint 10), [Val.vint 1])], ["F"]⟩ : Store).records ∧
        Query.matches (Query.mk "" [("F", [⟨Op.eq, Val.vint 10, []⟩])]
          .nil 0 0 [] false) p.1 p.2 = .ok true) := by
  have hcons : indexConsistent ⟨[(Val.vint 1, [("F", Val.vint 10)])],
      [(("F", Val.vint 10), [Val.vint 1])], ["F"]⟩ "F" := by
    intro v k
    constructor
    · intro hk
      by_cases hv : v = Val.vint 10
      · subst hv
        have : k = Val.vint 1 := by
          simpa [entryKeys, lookupEntry, List.find?] using hk
        subst this
        exact ⟨[("F", Val.vint 10)], by simp, rfl⟩
      · exfalso
        have hne : ¬ ((("F", Val.vint 10) : String × Val) = ("F", v)) := by
          simp [Ne.symm hv]
        simp [entryKeys, lookupEntry, List.find?, hne] at hk
    · rintro ⟨r, hr, hrv⟩
      have hkr : (k, r) = (Val.vint 1, [("F", Val.vint 10)]) := by simpa using hr
      have hk : k = Val.vint 1 := by injection hkr
      have hrr : r = [("F", Val.vint 10)] := by injection hkr
      subst hk; subst hrr
      have hv : v = Val.vint 10 := by
        have := hrv
        simp [recLookup] at this
        exact this.symm
      subst hv
      simp [entryKeys, lookupEntry, List.find?]
  exact C1_find_index_path_equals_scan
    ⟨[(Val.vint 1, [("F", Val.vint 10)])],
      [(("F", Val.vint 10), [Val.vint 1])], ["F"]⟩
    "F" [("F", [⟨Op.eq, Val.vint 10, []⟩])] ⟨Op.eq, Val.vint 10, []⟩ false
    (by decide) (by decide) (by decide) (by decide) (Or.inl rfl) (by decide)
    hcons (by decide)
    (by
      intro p hp
      have hp2 : p = (Val.vint 1, [("F", Val.vint 10)]) := by simpa using hp
      subst hp2
      exact ⟨true, rfl⟩)

end Badgerhold
